import Mathlib

/-!
Verification of the certificate-generator repository.

The development shallowly embeds the rendering core and batch orchestration of
the repository:

* `src/src/utils/certificateRenderer.ts` — a `CertificateRenderer` variant
  (here namespace `VariantA`) whose body/wrap/QR logic differs slightly from
  the second variant;
* `src/unnamed/part_003` — the `CertificateRenderer` variant used by the batch
  component (here namespace `VariantB`);
* `src/unnamed/part_000` — `BatchCertificateGenerator.generateBatchCertificates`
  (here namespace `Batch`);
* `src/src/utils/csvParser.ts` — `validateAndCreateParticipant` and
  `sanitizeString` (here namespace `CSV`).

JS strings are modelled as `List Char` (`Str`); JS numbers as `ℚ`; the canvas
2D context as an explicit state record `Ctx` threaded through the drawing
functions, which emit a trace of `DrawOp`s; image loading and text measurement
are oracles in `RenderEnv` (a load failure is `none`, matching the `onerror`
handlers, which always `resolve`).
-/

set_option maxRecDepth 4096

namespace Cert

/-- JS strings, modelled as lists of characters. -/
abbrev Str := List Char

/-! ### String primitives used by the source (JS `split`, `trim`, `replace`) -/

/-- JS `text.split(' ')`: split on every single space character, keeping empty
segments; the empty string yields `[""]`. -/
def splitSp : Str → List Str
  | [] => [[]]
  | c :: cs =>
    if c = ' ' then [] :: splitSp cs
    else
      match splitSp cs with
      | [] => [[c]]
      | l :: ls => (c :: l) :: ls

/-- Fuelled worker for JS `s.split(sep)` with a multi-character separator:
scan left to right, splitting at each (non-overlapping) occurrence of `sep`. -/
def splitSeqF (sep : List Char) : Nat → List Char → List (List Char)
  | _, [] => [[]]
  | 0, s => [s]
  | fuel + 1, c :: cs =>
    if sep.isPrefixOf (c :: cs) ∧ sep ≠ [] then
      [] :: splitSeqF sep fuel (List.drop (sep.length - 1) cs)
    else
      match splitSeqF sep fuel cs with
      | [] => [[c]]
      | l :: ls => (c :: l) :: ls

/-- JS `s.split(sep)` for a fixed separator token such as `"{name}"`. -/
def splitSeq (sep : List Char) (s : List Char) : List (List Char) :=
  splitSeqF sep s.length s

/-- JS `s.replace(sep, repl)`: replace the first occurrence only. -/
def replaceFirst (sep repl s : Str) : Str :=
  match splitSeq sep s with
  | [] => s
  | [_] => s
  | p :: ps => p ++ repl ++ (List.intercalate sep ps)

/-- Whitespace test for the JS `trim` model. -/
def isWS (c : Char) : Bool := c = ' ' || c = '\t' || c = '\n' || c = '\r'

/-- JS `s.trim()`. -/
def trimStr (s : Str) : Str :=
  ((s.dropWhile isWS).reverse.dropWhile isWS).reverse

/-- Join a list of segments with single spaces (inverse of `splitSp`). -/
def joinSp : List Str → Str
  | [] => []
  | [l] => l
  | l :: ls => l ++ ' ' :: joinSp ls

/-- The whitespace-separated words of a string: the nonempty segments of the
space-split.  Used to state the token-preservation property of `wrapText`. -/
def wordsOf (s : Str) : List Str :=
  (splitSp s).filter (fun w => !w.isEmpty)

/-! ### Lemmas about `splitSp` / `wordsOf` -/

theorem splitSp_ne_nil (s : Str) : splitSp s ≠ [] := by
  cases s with
  | nil => simp [splitSp]
  | cons c cs =>
    simp only [splitSp]
    split
    · simp
    · split <;> simp_all

theorem splitSp_space_cons (s : Str) : splitSp (' ' :: s) = [] :: splitSp s := by
  simp [splitSp]

theorem splitSp_cons_of_ne {c : Char} (h : c ≠ ' ') (s : Str) {l : Str} {ls : List Str}
    (hs : splitSp s = l :: ls) : splitSp (c :: s) = (c :: l) :: ls := by
  simp only [splitSp, if_neg h, hs]

/-- `splitSp` distributes over a space: splitting `a ++ " " ++ b` splits
`a` and `b` independently. -/
theorem splitSp_append_space (a b : Str) :
    splitSp (a ++ ' ' :: b) = splitSp a ++ splitSp b := by
  induction a with
  | nil => simp [splitSp_space_cons, splitSp]
  | cons c a ih =>
    by_cases hc : c = ' '
    · subst hc
      simp only [List.cons_append, splitSp_space_cons, ih]
    · obtain ⟨l, ls, ha⟩ : ∃ l ls, splitSp a = l :: ls := by
        cases h : splitSp a with
        | nil => exact absurd h (splitSp_ne_nil a)
        | cons l ls => exact ⟨l, ls, rfl⟩
      have h2 : splitSp (a ++ ' ' :: b) = (l :: ls) ++ splitSp b := by
        rw [ih, ha]
      rw [List.cons_append, splitSp_cons_of_ne hc _ h2, splitSp_cons_of_ne hc _ ha]
      simp

theorem wordsOf_nil : wordsOf [] = [] := rfl

theorem wordsOf_append_space (a b : Str) :
    wordsOf (a ++ ' ' :: b) = wordsOf a ++ wordsOf b := by
  simp [wordsOf, splitSp_append_space]

/-- A string with no space splits into itself. -/
theorem splitSp_of_no_space {s : Str} (h : ∀ c ∈ s, c ≠ ' ') : splitSp s = [s] := by
  induction s with
  | nil => rfl
  | cons c cs ih =>
    have hc : c ≠ ' ' := h c (List.mem_cons_self c cs)
    have hcs : splitSp cs = [cs] := ih (fun x hx => h x (List.mem_cons_of_mem c hx))
    exact splitSp_cons_of_ne hc _ hcs

/-- Every segment produced by `splitSp` is space-free. -/
theorem no_space_of_mem_splitSp {s w : Str} (hw : w ∈ splitSp s) :
    ∀ c ∈ w, c ≠ ' ' := by
  induction s generalizing w with
  | nil => simp [splitSp] at hw; simp [hw]
  | cons c cs ih =>
    by_cases hc : c = ' '
    · subst hc
      rw [splitSp_space_cons] at hw
      rcases List.mem_cons.mp hw with h | h
      · simp [h]
      · exact ih h
    · obtain ⟨l, ls, hs⟩ : ∃ l ls, splitSp cs = l :: ls := by
        cases h : splitSp cs with
        | nil => exact absurd h (splitSp_ne_nil cs)
        | cons l ls => exact ⟨l, ls, rfl⟩
      rw [splitSp_cons_of_ne hc _ hs] at hw
      rcases List.mem_cons.mp hw with h | h
      · subst h
        intro x hx
        rcases List.mem_cons.mp hx with h | h
        · simpa [h] using hc
        · exact ih (by rw [hs]; exact List.mem_cons_self _ _) x h
      · exact ih (by rw [hs]; exact List.mem_cons_of_mem _ h)

/-- `joinSp` is a left inverse of `splitSp`: the split segments, joined with
single spaces, give back the original string. -/
theorem joinSp_splitSp (s : Str) : joinSp (splitSp s) = s := by
  induction s with
  | nil => rfl
  | cons c cs ih =>
    by_cases hc : c = ' '
    · subst hc
      rw [splitSp_space_cons]
      obtain ⟨l, ls, h⟩ : ∃ l ls, splitSp cs = l :: ls := by
        cases h : splitSp cs with
        | nil => exact absurd h (splitSp_ne_nil cs)
        | cons l ls => exact ⟨l, ls, rfl⟩
      rw [h] at ih ⊢
      simpa [joinSp] using ih
    · obtain ⟨l, ls, h⟩ : ∃ l ls, splitSp cs = l :: ls := by
        cases h : splitSp cs with
        | nil => exact absurd h (splitSp_ne_nil cs)
        | cons l ls => exact ⟨l, ls, rfl⟩
      rw [splitSp_cons_of_ne hc _ h]
      rw [h] at ih
      cases ls with
      | nil => simpa [joinSp] using ih
      | cons l2 ls2 => simpa [joinSp] using ih

/-- A member of a joined list occurs contiguously inside the join. -/
theorem joinSp_mem_infix {w : Str} {L : List Str} (hw : w ∈ L) :
    ∃ u v, joinSp L = u ++ (w ++ v) := by
  induction L with
  | nil => cases hw
  | cons l ls ih =>
    rcases List.mem_cons.mp hw with h | h
    · subst h
      cases ls with
      | nil => exact ⟨[], [], by simp [joinSp]⟩
      | cons l2 ls2 => exact ⟨[], ' ' :: joinSp (l2 :: ls2), by simp [joinSp]⟩
    · obtain ⟨u, v, huv⟩ := ih h
      cases ls with
      | nil => cases h
      | cons l2 ls2 =>
        exact ⟨l ++ ' ' :: u, v, by simp [joinSp, huv]⟩

/-- A word of `s` occurs contiguously inside `s`. -/
theorem wordsOf_mem_infix {w s : Str} (hw : w ∈ wordsOf s) :
    ∃ u v, s = u ++ (w ++ v) := by
  have hmem : w ∈ splitSp s := List.mem_of_mem_filter hw
  obtain ⟨u, v, huv⟩ := joinSp_mem_infix hmem
  exact ⟨u, v, by rw [← joinSp_splitSp s, huv]⟩

/-- The words of a single space-free segment: none if it is empty, itself
otherwise. -/
theorem wordsOf_of_no_space {w : Str} (h : ∀ c ∈ w, c ≠ ' ') :
    wordsOf w = if w = [] then [] else [w] := by
  rw [wordsOf, splitSp_of_no_space h]
  cases w <;> simp [List.filter]

/-- Flattening the words of all segments of the space-split recovers the words
of the string. -/
theorem flatMap_wordsOf_splitSp (s : Str) :
    (splitSp s).flatMap wordsOf = wordsOf s := by
  have h : ∀ L : List Str, (∀ w ∈ L, ∀ c ∈ w, c ≠ ' ') →
      L.flatMap wordsOf = L.filter (fun w => !w.isEmpty) := by
    intro L
    induction L with
    | nil => simp
    | cons l ls ih =>
      intro hL
      have hl := hL l (List.mem_cons_self l ls)
      have hls := fun w hw => hL w (List.mem_cons_of_mem l hw)
      rw [List.flatMap_cons, ih hls, wordsOf_of_no_space hl]
      by_cases he : l = []
      · subst he; simp
      · simp [he, List.filter_cons, List.isEmpty_iff, he]
  rw [h (splitSp s) (fun w hw => no_space_of_mem_splitSp hw), wordsOf]

/-! ### Shared data model (src/src/types/certificate.ts, in src/unnamed/part_002) -/

/-- `Participant` from the types module: `name` required, the rest optional. -/
structure Participant where
  id : Str
  name : Str
  email : Option Str
  course : Option Str
  date : Option Str
  grade : Option Str
deriving DecidableEq

/-- Image position values `'left' | 'center' | 'right'`. -/
inductive Pos
  | left
  | center
  | right
deriving DecidableEq

/-- `CertificateTemplate` from the types module (the shape consumed by the
part_003 renderer). -/
structure CertificateTemplate where
  id : Str
  name : Str
  width : ℚ
  height : ℚ
  backgroundColor : String
  titleText : Str
  titleFont : String
  titleSize : ℚ
  titleColor : String
  bodyText : Str
  bodyFont : String
  bodySize : ℚ
  bodyColor : String
  participantNameSize : ℚ
  participantNameColor : String
  logoUrl : Option String
  logoPosition : Option Pos
  signatureUrl : Option String
  signaturePosition : Option Pos
deriving DecidableEq

/-! ### Canvas model -/

/-- CSS font weight/style prefix appearing in the source's font strings. -/
inductive Weight
  | normal
  | bold
  | italic
deriving DecidableEq

/-- The canvas font state, structured form of the `"bold 24px Arial"` strings
assigned to `ctx.font`. -/
structure Font where
  weight : Weight
  size : ℚ
  family : String
deriving DecidableEq

/-- A canvas paint style: a CSS color string or the border's linear gradient. -/
inductive Paint
  | color (value : String)
  | linearGradient (x0 y0 x1 y1 : ℚ) (stops : List (ℚ × String))
deriving DecidableEq

/-- One drawing primitive applied to the canvas, recorded together with the
context state it was issued under. -/
inductive DrawOp
  | fillRect (paint : Paint) (x y w h : ℚ)
  | clearRect (x y w h : ℚ)
  | strokeRect (paint : Paint) (lineWidth : ℚ) (x y w h : ℚ)
  | fillText (text : Str) (x y : ℚ) (font : Font) (paint : Paint)
      (align : String) (baseline : String)
  | drawImage (url : String) (x y w h : ℚ)
  | strokeLine (paint : Paint) (lineWidth : ℚ) (x1 y1 x2 y2 : ℚ)
deriving DecidableEq

/-- The mutable state of a `CanvasRenderingContext2D` that the source reads. -/
structure Ctx where
  font : Font
  fillStyle : Paint
  strokeStyle : Paint
  lineWidth : ℚ
  textAlign : String
  textBaseline : String
deriving DecidableEq

/-- Natural dimensions of a successfully loaded image. -/
structure ImgDim where
  width : ℚ
  height : ℚ
deriving DecidableEq

/-- External capabilities of the rendering environment: text measurement
(`ctx.measureText` under a font), image loading (`none` = the `onerror`
path fired), and the current date string. -/
structure RenderEnv where
  measure : Font → Str → ℚ
  loadImage : String → Option ImgDim
  today : Str

/-- The `{name}` placeholder token. -/
def nameTok : Str := ("{name}").toList

/-! ### VariantB: the `CertificateRenderer` of src/unnamed/part_003 -/

namespace VariantB

/-- `CertificateConfig` from the types module. -/
structure Config where
  template : CertificateTemplate
  participant : Participant
  qrCodeUrl : Option String
  includeQR : Bool
deriving DecidableEq

/-- `getLogoPosition`: `currentTemplate?.logoPosition || 'center'`. -/
def getLogoPosition (t : CertificateTemplate) : Pos :=
  t.logoPosition.getD Pos.center

/-- `getSignaturePosition`: `currentTemplate?.signaturePosition || 'right'`. -/
def getSignaturePosition (t : CertificateTemplate) : Pos :=
  t.signaturePosition.getD Pos.right

/-- `wrapText(text, maxWidth)`: start from `words[0]`, append the next word
while the measured width of `currentLine + ' ' + word` is strictly below
`maxWidth`, otherwise push the line and restart from the word; the final
`currentLine` is always pushed.  `m` is `ctx.measureText` under the current
font. -/
def wrapStep (m : Str → ℚ) (maxWidth : ℚ) (acc : List Str × Str)
    (word : Str) : List Str × Str :=
  if m (acc.2 ++ ' ' :: word) < maxWidth then (acc.1, acc.2 ++ ' ' :: word)
  else (acc.1 ++ [acc.2], word)

def wrapText (m : Str → ℚ) (maxWidth : ℚ) (text : Str) : List Str :=
  match splitSp text with
  | [] => []
  | w0 :: ws =>
    let r := ws.foldl (wrapStep m maxWidth) ([], w0)
    r.1 ++ [r.2]

/-- `drawBorder`: outer gradient stroke plus inner solid stroke. -/
def drawBorder (t : CertificateTemplate) (c : Ctx) : List DrawOp × Ctx :=
  let grad := Paint.linearGradient 0 0 t.width 0
    [(0, "#FFD700"), (1/2, "#FFA500"), (1, "#FFD700")]
  let c1 := { c with strokeStyle := grad, lineWidth := 8 }
  let op1 := DrawOp.strokeRect c1.strokeStyle c1.lineWidth (8/2) (8/2)
    (t.width - 8) (t.height - 8)
  let c2 := { c1 with strokeStyle := Paint.color "#DAA520", lineWidth := 2 }
  let op2 := DrawOp.strokeRect c2.strokeStyle c2.lineWidth 20 20
    (t.width - 40) (t.height - 40)
  ([op1, op2], c2)

/-- `drawLogo`: on load success draw an 80×80 logo at the top, horizontally
placed per `getLogoPosition`; on `onerror` resolve with nothing drawn. -/
def drawLogo (env : RenderEnv) (t : CertificateTemplate) (url : String)
    (c : Ctx) : List DrawOp × Ctx :=
  match env.loadImage url with
  | some _ =>
    let logoSize : ℚ := 80
    let x : ℚ :=
      match getLogoPosition t with
      | Pos.left => 50
      | Pos.right => t.width - logoSize - 50
      | Pos.center => (t.width - logoSize) / 2
    ([DrawOp.drawImage url x 40 logoSize logoSize], c)
  | none => ([], c)

/-- `drawTitle`: bold `titleSize` text, centered, shifted down when a logo was
requested. -/
def drawTitle (t : CertificateTemplate) (c : Ctx) : List DrawOp × Ctx :=
  let c1 := { c with font := ⟨Weight.bold, t.titleSize, t.titleFont⟩,
                     fillStyle := Paint.color t.titleColor,
                     textAlign := "center", textBaseline := "middle" }
  let titleY : ℚ := if t.logoUrl.isSome then 180 else 120
  ([DrawOp.fillText t.titleText (t.width / 2) titleY c1.font c1.fillStyle
      c1.textAlign c1.textBaseline], c1)

/-- Emit one `fillText` per wrapped line, line `i` at `startY + i * lineH`. -/
def lineOps (c : Ctx) (x startY lineH : ℚ) (lines : List Str) : List DrawOp :=
  lines.enum.map (fun p =>
    DrawOp.fillText p.2 x (startY + (p.1 : ℚ) * lineH) c.font c.fillStyle
      c.textAlign c.textBaseline)

/-- `drawBodyText` (part_003 lines 130–226): split the body on `{name}`; with
exactly one placeholder, wrap and draw the trimmed before-segment, draw the
participant name bold at `participantNameSize`/`participantNameColor`
unwrapped, wrap and draw the trimmed after-segment, then optional course and
grade lines; otherwise wrap the whole text with the first `{name}` (if any)
replaced by the participant's name. -/
def drawBodyText (env : RenderEnv) (t : CertificateTemplate) (p : Participant)
    (c : Ctx) : List DrawOp × Ctx :=
  let c0 := { c with font := ⟨Weight.normal, t.bodySize, t.bodyFont⟩,
                     fillStyle := Paint.color t.bodyColor,
                     textAlign := "center" }
  let bodyY : ℚ := if t.logoUrl.isSome then 280 else 220
  match splitSeq nameTok t.bodyText with
  | [seg0, seg1] =>
    let beforeName := trimStr seg0
    let afterName := trimStr seg1
    let lineH := t.bodySize + 10
    let (ops1, y1) :=
      if beforeName ≠ [] then
        let ls := wrapText (env.measure c0.font) (t.width - 100) beforeName
        (lineOps c0 (t.width / 2) bodyY lineH ls, bodyY + (ls.length : ℚ) * lineH)
      else ([], bodyY)
    let cN := { c0 with font := ⟨Weight.bold, t.participantNameSize, t.bodyFont⟩,
                        fillStyle := Paint.color t.participantNameColor }
    let opName := DrawOp.fillText p.name (t.width / 2) y1 cN.font cN.fillStyle
      cN.textAlign cN.textBaseline
    let y2 := y1 + t.participantNameSize + 15
    let cR := { cN with font := ⟨Weight.normal, t.bodySize, t.bodyFont⟩,
                        fillStyle := Paint.color t.bodyColor }
    let (ops2, y3) :=
      if afterName ≠ [] then
        let ls := wrapText (env.measure cR.font) (t.width - 100) afterName
        (lineOps cR (t.width / 2) y2 lineH ls, y2 + (ls.length : ℚ) * lineH)
      else ([], y2)
    let finalBodyY := y3
    let (opsC, cC) :=
      match p.course with
      | some course =>
        let cC := { cR with font := ⟨Weight.italic, t.bodySize - 4, t.bodyFont⟩ }
        ([DrawOp.fillText (("Course: ").toList ++ course) (t.width / 2)
            (finalBodyY + 30) cC.font cC.fillStyle cC.textAlign cC.textBaseline], cC)
      | none => ([], cR)
    let (opsG, cG) :=
      match p.grade with
      | some grade =>
        let cG := { cC with font := ⟨Weight.bold, t.bodySize - 2, t.bodyFont⟩ }
        ([DrawOp.fillText (("Grade: ").toList ++ grade) (t.width / 2)
            (finalBodyY + (if p.course.isSome then 60 else 30)) cG.font
            cG.fillStyle cG.textAlign cG.textBaseline], cG)
      | none => ([], cC)
    (ops1 ++ [opName] ++ ops2 ++ opsC ++ opsG, cG)
  | _ =>
    let fullText := replaceFirst nameTok p.name t.bodyText
    let ls := wrapText (env.measure c0.font) (t.width - 100) fullText
    let lineH := t.bodySize + 10
    let ops := lineOps c0 (t.width / 2) bodyY lineH ls
    let (opsC, cC) :=
      match p.course with
      | some course =>
        let cC := { c0 with font := ⟨Weight.italic, t.bodySize - 4, t.bodyFont⟩ }
        ([DrawOp.fillText (("Course: ").toList ++ course) (t.width / 2)
            (bodyY + (ls.length : ℚ) * lineH + 30) cC.font cC.fillStyle
            cC.textAlign cC.textBaseline], cC)
      | none => ([], c0)
    let (opsG, cG) :=
      match p.grade with
      | some grade =>
        let cG := { cC with font := ⟨Weight.bold, t.bodySize - 2, t.bodyFont⟩ }
        ([DrawOp.fillText (("Grade: ").toList ++ grade) (t.width / 2)
            (bodyY + (ls.length : ℚ) * lineH + 60) cG.font cG.fillStyle
            cG.textAlign cG.textBaseline], cG)
      | none => ([], cC)
    (ops ++ opsC ++ opsG, cG)

/-- `drawSignature`: on load success draw the 150×60 signature near the bottom
per `getSignaturePosition`, a signature line and a label; on `onerror` resolve
with nothing drawn. -/
def drawSignature (env : RenderEnv) (t : CertificateTemplate) (url : String)
    (c : Ctx) : List DrawOp × Ctx :=
  match env.loadImage url with
  | some _ =>
    let sigWidth : ℚ := 150
    let sigHeight : ℚ := 60
    let x : ℚ :=
      match getSignaturePosition t with
      | Pos.left => 50
      | Pos.center => (t.width - sigWidth) / 2
      | Pos.right => t.width - sigWidth - 50
    let y := t.height - sigHeight - 80
    let c1 := { c with strokeStyle := Paint.color "#000000", lineWidth := 1 }
    let c2 := { c1 with font := ⟨Weight.normal, 12, "Arial"⟩,
                        fillStyle := Paint.color "#000000",
                        textAlign := "center" }
    ([DrawOp.drawImage url x y sigWidth sigHeight,
      DrawOp.strokeLine c1.strokeStyle c1.lineWidth x (y + sigHeight + 10)
        (x + sigWidth) (y + sigHeight + 10),
      DrawOp.fillText (("Authorized Signature").toList) (x + sigWidth / 2)
        (y + sigHeight + 25) c2.font c2.fillStyle c2.textAlign c2.textBaseline],
     c2)
  | none => ([], c)

/-- `drawQRCode`: on load success draw the 100×100 QR image bottom-left plus
the "Scan to verify" caption; on `onerror` resolve with nothing drawn. -/
def drawQRCode (env : RenderEnv) (t : CertificateTemplate) (url : String)
    (c : Ctx) : List DrawOp × Ctx :=
  match env.loadImage url with
  | some _ =>
    let qrSize : ℚ := 100
    let x : ℚ := 50
    let y := t.height - qrSize - 50
    let c1 := { c with font := ⟨Weight.normal, 10, "Arial"⟩,
                       fillStyle := Paint.color "#666666",
                       textAlign := "center" }
    ([DrawOp.drawImage url x y qrSize qrSize,
      DrawOp.fillText (("Scan to verify").toList) (x + qrSize / 2)
        (y + qrSize + 15) c1.font c1.fillStyle c1.textAlign c1.textBaseline],
     c1)
  | none => ([], c)

/-- `drawDate`. -/
def drawDate (t : CertificateTemplate) (d : Str) (c : Ctx) : List DrawOp × Ctx :=
  let c1 := { c with font := ⟨Weight.normal, 16, "Arial"⟩,
                     fillStyle := Paint.color "#333333",
                     textAlign := "center" }
  ([DrawOp.fillText (("Date: ").toList ++ d) (t.width / 2) (t.height - 30)
      c1.font c1.fillStyle c1.textAlign c1.textBaseline], c1)

/-- `renderCertificate` (part_003): background, border, optional logo, title,
body, optional signature, QR only when `includeQR && qrCodeUrl`, then the
date.  Every awaited image load resolves (`onerror` included), so the `catch`
branch that would produce `Failed to render certificate` is never taken and
the result is always `Except.ok`. -/
def renderCertificate (env : RenderEnv) (cfg : Config) (c0 : Ctx) :
    Except String (List DrawOp × Ctx) :=
  let t := cfg.template
  let c := { c0 with fillStyle := Paint.color t.backgroundColor }
  let bg := DrawOp.fillRect c.fillStyle 0 0 t.width t.height
  let (o1, c1) := drawBorder t c
  let (o2, c2) :=
    match t.logoUrl with
    | some u => drawLogo env t u c1
    | none => ([], c1)
  let (o3, c3) := drawTitle t c2
  let (o4, c4) := drawBodyText env t cfg.participant c3
  let (o5, c5) :=
    match t.signatureUrl with
    | some u => drawSignature env t u c4
    | none => ([], c4)
  let (o6, c6) :=
    if cfg.includeQR ∧ cfg.qrCodeUrl.isSome then
      match cfg.qrCodeUrl with
      | some u => drawQRCode env t u c5
      | none => ([], c5)
    else ([], c5)
  let dateStr :=
    match cfg.participant.date with
    | some d => if d = [] then env.today else d
    | none => env.today
  let (o7, c7) := drawDate t dateStr c6
  Except.ok (bg :: (o1 ++ o2 ++ o3 ++ o4 ++ o5 ++ o6 ++ o7), c7)

end VariantB

/-! ### VariantA: the `CertificateRenderer` of src/src/utils/certificateRenderer.ts -/

namespace VariantA

/-- The template fields this variant reads (note `bodyTextSize`,
`bodyTextColor` and `includeQRCode`, which differ from the types module). -/
structure TemplateA where
  width : ℚ
  height : ℚ
  backgroundColor : String
  titleText : Str
  titleSize : ℚ
  titleColor : String
  bodyText : Str
  bodyTextSize : ℚ
  bodyTextColor : String
  participantNameSize : ℚ
  participantNameColor : String
  logoUrl : Option String
  logoPosition : Option Pos
  signatureUrl : Option String
  signaturePosition : Option Pos
  includeQRCode : Bool
deriving DecidableEq

/-- `CertificateConfig` as declared locally in certificateRenderer.ts:
`participant?: { name: string }`. -/
structure ConfigA where
  template : TemplateA
  participant : Option Str
  qrCodeUrl : Option String
  includeQR : Bool
deriving DecidableEq

/-- Vertical anchor of `renderImage`. -/
inductive VPos
  | top
  | bottom
deriving DecidableEq

/-- `getFont`: always `'Arial, sans-serif'`. -/
def getFont : String := "Arial, sans-serif"

/-- `wrapText(text, maxWidth, fontSize)`: starting from the empty line, set
`testLine = currentLine + (currentLine ? ' ' : '') + word`; push the current
line and restart only when the measured test line exceeds `maxWidth` and the
current line is nonempty; a nonempty final line is pushed.  `m` is
`ctx.measureText` under the `fontSize` body font this method installs. -/
def wrapStep (m : Str → ℚ) (maxWidth : ℚ) (acc : List Str × Str)
    (word : Str) : List Str × Str :=
  let testLine := acc.2 ++ (if acc.2 = [] then [] else [' ']) ++ word
  if m testLine > maxWidth ∧ acc.2 ≠ [] then (acc.1 ++ [acc.2], word)
  else (acc.1, testLine)

def wrapText (m : Str → ℚ) (maxWidth : ℚ) (text : Str) : List Str :=
  let r := (splitSp text).foldl (wrapStep m maxWidth) ([], [])
  if r.2 = [] then r.1 else r.1 ++ [r.2]

/-- `renderTitle`. -/
def renderTitle (t : TemplateA) (w : ℚ) (c : Ctx) : List DrawOp × Ctx :=
  let c1 := { c with font := ⟨Weight.bold, t.titleSize, getFont⟩,
                     fillStyle := Paint.color t.titleColor,
                     textAlign := "center", textBaseline := "top" }
  ([DrawOp.fillText t.titleText (w / 2) 80 c1.font c1.fillStyle c1.textAlign
      c1.textBaseline], c1)

/-- `renderBodyText(text, size, color, participantName?, nameSize?, nameColor?)`:
with a `{name}` placeholder and a (truthy) participant name, wrap and draw
`parts[0].trim()`, draw the name bold at `nameSize || size` in
`nameColor || color` unwrapped, then wrap and draw `parts[1].trim()`;
otherwise wrap the whole text with `{name}` replaced by the name when one was
given. -/
def renderBodyText (env : RenderEnv) (w : ℚ) (text : Str) (size : ℚ)
    (color : String) (participantName : Option Str) (nameSize : ℚ)
    (nameColor : String) (c : Ctx) : List DrawOp × Ctx :=
  let x := w / 2
  let y : ℚ := 250
  let maxWidth := w - 100
  let cA := { c with textAlign := "center", textBaseline := "top" }
  let hasName : Bool := match participantName with
    | some n => !n.isEmpty
    | none => false
  match splitSeq nameTok text, hasName with
  | p0 :: p1 :: _, true =>
    let cB := { cA with font := ⟨Weight.normal, size, getFont⟩,
                        fillStyle := Paint.color color }
    let (ops1, y1) :=
      if trimStr p0 ≠ [] then
        let ls := wrapText (env.measure cB.font) maxWidth (trimStr p0)
        (ls.enum.map (fun q =>
          DrawOp.fillText q.2 x (y + (q.1 : ℚ) * (size * 1.2)) cB.font
            cB.fillStyle cB.textAlign cB.textBaseline),
         y + (ls.length : ℚ) * (size * 1.2))
      else ([], y)
    let nsz := if nameSize = 0 then size else nameSize
    let ncol := if nameColor = "" then color else nameColor
    let cN := { cB with font := ⟨Weight.bold, nsz, getFont⟩,
                        fillStyle := Paint.color ncol }
    let opName := DrawOp.fillText (participantName.getD []) x y1 cN.font
      cN.fillStyle cN.textAlign cN.textBaseline
    let y2 := y1 + nsz * 1.2
    let cB2 := { cN with font := ⟨Weight.normal, size, getFont⟩,
                         fillStyle := Paint.color color }
    let ops2 :=
      if trimStr p1 ≠ [] then
        let ls := wrapText (env.measure cB2.font) maxWidth (trimStr p1)
        ls.enum.map (fun q =>
          DrawOp.fillText q.2 x (y2 + (q.1 : ℚ) * (size * 1.2)) cB2.font
            cB2.fillStyle cB2.textAlign cB2.textBaseline)
      else []
    (ops1 ++ [opName] ++ ops2, cB2)
  | _, hn =>
    let finalText := if hn then replaceFirst nameTok (participantName.getD []) text
                     else text
    let cB := { cA with font := ⟨Weight.normal, size, getFont⟩,
                        fillStyle := Paint.color color }
    let ls := wrapText (env.measure cB.font) maxWidth finalText
    (ls.enum.map (fun q =>
      DrawOp.fillText q.2 x (y + (q.1 : ℚ) * (size * 1.2)) cB.font cB.fillStyle
        cB.textAlign cB.textBaseline), cB)

/-- `renderQRCodePlaceholder`: black 80×80 rect bottom-right plus a white
"QR" label. -/
def renderQRCodePlaceholder (w h : ℚ) (c : Ctx) : List DrawOp × Ctx :=
  let size : ℚ := 80
  let x := w - size - 20
  let y := h - size - 20
  let c1 := { c with fillStyle := Paint.color "#000000" }
  let op1 := DrawOp.fillRect c1.fillStyle x y size size
  let c2 := { c1 with fillStyle := Paint.color "#ffffff",
                      font := ⟨Weight.normal, 12, getFont⟩,
                      textAlign := "center" }
  let op2 := DrawOp.fillText (("QR").toList) (x + size / 2) (y + size / 2)
    c2.font c2.fillStyle c2.textAlign c2.textBaseline
  ([op1, op2], c2)

/-- `renderQRCode`: draw the 80×80 QR image bottom-right on load success; on
`onerror` draw the placeholder instead and resolve. -/
def renderQRCode (env : RenderEnv) (w h : ℚ) (url : String) (c : Ctx) :
    List DrawOp × Ctx :=
  match env.loadImage url with
  | some _ =>
    let size : ℚ := 80
    ([DrawOp.drawImage url (w - size - 20) (h - size - 20) size size], c)
  | none => renderQRCodePlaceholder w h c

/-- `renderImage`: scale into a 150×100 box preserving aspect ratio, place
per the horizontal position and the top/bottom anchor; on `onerror` resolve
and continue with nothing drawn. -/
def renderImage (env : RenderEnv) (w h : ℚ) (url : String) (pos : Pos)
    (vert : VPos) (c : Ctx) : List DrawOp × Ctx :=
  match env.loadImage url with
  | some dim =>
    let maxW : ℚ := 150
    let maxH : ℚ := 100
    let scale := min (maxW / dim.width) (maxH / dim.height)
    let iw := dim.width * scale
    let ih := dim.height * scale
    let x : ℚ :=
      match pos with
      | Pos.left => 50
      | Pos.right => w - iw - 50
      | Pos.center => (w - iw) / 2
    let y : ℚ := if vert = VPos.top then 20 else h - ih - 20
    ([DrawOp.drawImage url x y iw ih], c)
  | none => ([], c)

/-- `renderCertificate` (certificateRenderer.ts): canvas sizing with `|| 800`
and `|| 600` defaults, clear, background fill, optional logo, title, body,
optional signature, then QR: the real QR code when `includeQR && qrCodeUrl`,
otherwise the placeholder whenever `template.includeQRCode` is set. -/
def renderCertificate (env : RenderEnv) (cfg : ConfigA) (c0 : Ctx) :
    List DrawOp × Ctx :=
  let t := cfg.template
  let w := if t.width = 0 then 800 else t.width
  let h := if t.height = 0 then 600 else t.height
  let clr := DrawOp.clearRect 0 0 w h
  let bgPaint := Paint.color
    (if t.backgroundColor = "" then "#ffffff" else t.backgroundColor)
  let c := { c0 with fillStyle := bgPaint }
  let bg := DrawOp.fillRect c.fillStyle 0 0 w h
  let (o1, c1) :=
    match t.logoUrl with
    | some u => renderImage env w h u (t.logoPosition.getD Pos.center) VPos.top c
    | none => ([], c)
  let (o2, c2) := renderTitle t w c1
  let (o3, c3) := renderBodyText env w t.bodyText t.bodyTextSize t.bodyTextColor
    cfg.participant t.participantNameSize t.participantNameColor c2
  let (o4, c4) :=
    match t.signatureUrl with
    | some u => renderImage env w h u (t.signaturePosition.getD Pos.center)
        VPos.bottom c3
    | none => ([], c3)
  let (o5, c5) :=
    if cfg.includeQR ∧ cfg.qrCodeUrl.isSome then
      match cfg.qrCodeUrl with
      | some u => renderQRCode env w h u c4
      | none => ([], c4)
    else if t.includeQRCode then renderQRCodePlaceholder w h c4
    else ([], c4)
  (clr :: bg :: (o1 ++ o2 ++ o3 ++ o4 ++ o5), c5)

end VariantA

/-! ### Spec-side definition for the wrap refinement claim

`wrapSpecGreedy` transcribes the specification's words for `wrap`: split the
text on whitespace into tokens; accumulate tokens into the current line while
the measured width of `currentLine + " " + nextToken` does NOT EXCEED
`maxWidth`; when it would exceed, close the current line and start a new one
with the token (a token starting a line is placed unconditionally, so an
oversized token still gets its own line). -/
def wrapSpecStep (m : Str → ℚ) (maxWidth : ℚ) (acc : List Str × Str)
    (tok : Str) : List Str × Str :=
  if acc.2 = [] then (acc.1, tok)
  else if m (acc.2 ++ ' ' :: tok) ≤ maxWidth then (acc.1, acc.2 ++ ' ' :: tok)
  else (acc.1 ++ [acc.2], tok)

def wrapSpecGreedy (m : Str → ℚ) (maxWidth : ℚ) (text : Str) : List Str :=
  let r := (splitSp text).foldl (wrapSpecStep m maxWidth) ([], [])
  if r.2 = [] then r.1 else r.1 ++ [r.2]

/-! ### Batch orchestration (src/unnamed/part_000) -/

namespace Batch

/-- One invocation of `renderer.renderCertificate(config)` inside the batch
loop, recording which canvas (by identity) the shared renderer draws on and
the config fields the loop computes. -/
structure RenderCall where
  surface : Nat
  template : CertificateTemplate
  participant : Participant
  qrCodeUrl : Option String
  includeQR : Bool
deriving DecidableEq

/-- External behaviour the orchestrator depends on:
`qrBatch` is `QRCodeGenerator.generateBatchQRCodes` (an `error` result is the
whole-phase failure caught at part_000 line 61); `renderResult` abstracts the
per-record `try` body (render, fetch, blob) — `error` is a caught per-record
failure, `ok` carries the produced PNG data. -/
structure BatchEnv where
  qrBatch : List Str → String → Except Unit (List (Str × String))
  renderResult : RenderCall → Except Unit String

/-- The observable outcome of one batch run: the zip contents, the `errors`
list, and the sequence of render calls made. -/
structure BatchOutput where
  files : List (Str × String)
  errors : List Str
  calls : List RenderCall
deriving DecidableEq

/-- `certificate-${participant.name.replace(/[^a-zA-Z0-9]/g, '-')}.png`. -/
def fileNameFor (p : Participant) : Str :=
  ("certificate-").toList ++
    (p.name.map (fun ch => if ch.isAlphanum then ch else '-')) ++ (".png").toList

/-- `Failed to generate certificate for ${participant.name}`. -/
def errMsgFor (p : Participant) : Str :=
  ("Failed to generate certificate for ").toList ++ p.name

/-- The single aggregate error pushed when the whole QR phase fails. -/
def qrAggMsg : Str := ("Failed to generate QR codes for verification").toList

/-- Phase 1 (part_000 lines 52–65): when QR is requested, ask the provider for
the whole batch; a thrown provider failure yields `qrCodes = null` and one
aggregate error message. -/
def qrPhase (env : BatchEnv) (ps : List Participant) (includeQR : Bool)
    (baseUrl : String) : Option (List (Str × String)) × List Str :=
  if includeQR then
    match env.qrBatch (ps.map (fun p => p.id)) baseUrl with
    | Except.ok m => (some m, [])
    | Except.error _ => (none, [qrAggMsg])
  else (none, [])

/-- The config built for one record (part_000 lines 78–83):
`qrCodeUrl: qrCodes?.get(participant.id)` and
`includeQR: includeQR && qrCodes?.has(participant.id) === true`.  `surface`
is the identity of the single canvas created before the loop. -/
def mkCall (t : CertificateTemplate) (qrm : Option (List (Str × String)))
    (includeQR : Bool) (p : Participant) : RenderCall :=
  { surface := 0
    template := t
    participant := p
    qrCodeUrl := qrm.bind (fun mp => mp.lookup p.id)
    includeQR := includeQR &&
      ((qrm.map (fun mp => (mp.lookup p.id).isSome)).getD false) }

/-- One iteration of the loop (part_000 lines 68–99): on success add the file
under the sanitized name; on a caught failure push the per-record message;
either way continue with the next record. -/
def batchStep (env : BatchEnv) (t : CertificateTemplate)
    (qrm : Option (List (Str × String))) (includeQR : Bool)
    (acc : BatchOutput) (p : Participant) : BatchOutput :=
  let call := mkCall t qrm includeQR p
  match env.renderResult call with
  | Except.ok dataUrl =>
    { acc with files := acc.files ++ [(fileNameFor p, dataUrl)],
               calls := acc.calls ++ [call] }
  | Except.error _ =>
    { acc with errors := acc.errors ++ [errMsgFor p],
               calls := acc.calls ++ [call] }

/-- `generateBatchCertificates`: early return on an empty participant list;
otherwise one canvas and one renderer are created, the QR phase runs, and the
loop processes every participant in input order on that same canvas. -/
def generateBatchCertificates (env : BatchEnv) (ps : List Participant)
    (t : CertificateTemplate) (includeQR : Bool) (baseUrl : String) :
    BatchOutput :=
  if ps.isEmpty then { files := [], errors := [], calls := [] }
  else
    let phase := qrPhase env ps includeQR baseUrl
    ps.foldl (batchStep env t phase.1 includeQR)
      { files := [], errors := phase.2, calls := [] }

/-- The count shown by the completion banner (part_000 lines 207–216):
`progress.current - progress.errors.length`, where `progress.current` is the
number of processed records and `progress.errors` the whole error list. -/
def successMessageCount (total : Nat) (errors : List Str) : Int :=
  (total : Int) - (errors.length : Int)

end Batch

/-! ### CSV import (src/src/utils/csvParser.ts) -/

namespace CSV

/-- One parsed CSV row as Papa Parse hands it over (headers lowercased;
absent fields are `none`). -/
structure Row where
  name : Option Str
  email : Option Str
  course : Option Str
  date : Option Str
  grade : Option Str

/-- A per-row validation error. -/
structure ValidationError where
  row : Nat
  field : String
  message : String

/-- External facilities of the import step: `Date` parsing/formatting and the
email regex, plus `Date.now()` for id generation. -/
structure CsvEnv where
  nowMs : Nat
  emailOk : Str → Bool
  dateOk : Str → Bool
  formatDate : Str → Str

/-- `sanitizeString`: `input.trim().replace(/[<>]/g, '')`. -/
def sanitizeString (s : Str) : Str :=
  (trimStr s).filter (fun ch => !(ch = '<' || ch = '>'))

/-- `participant_${rowNumber}_${Date.now()}`. -/
def participantId (rowNumber nowMs : Nat) : Str :=
  ("participant_").toList ++ (toString rowNumber).toList ++
    ("_").toList ++ (toString nowMs).toList

/-- `validateAndCreateParticipant`: reject the row (returning `null` plus a
`name is required` error) iff the raw name is missing or trims to empty;
otherwise record optional email/date format errors and build the participant
with sanitized fields. -/
def validateAndCreateParticipant (env : CsvEnv) (row : Row) (rowNumber : Nat) :
    Option Participant × List ValidationError :=
  match row.name with
  | none => (none, [⟨rowNumber, "name", "name is required and cannot be empty"⟩])
  | some raw =>
    if trimStr raw = [] then
      (none, [⟨rowNumber, "name", "name is required and cannot be empty"⟩])
    else
      let emailErrs :=
        match row.email with
        | some e => if e ≠ [] ∧ ¬ env.emailOk e then
            [(⟨rowNumber, "email", "Invalid email format"⟩ : ValidationError)]
          else []
        | none => []
      let dateErrs :=
        match row.date with
        | some d => if d ≠ [] ∧ ¬ env.dateOk d then
            [(⟨rowNumber, "date",
              "Invalid date format (expected: YYYY-MM-DD or MM/DD/YYYY)"⟩ :
              ValidationError)]
          else []
        | none => []
      let p : Participant :=
        { id := participantId rowNumber env.nowMs
          name := sanitizeString raw
          email := row.email.bind (fun e => if e = [] then none
            else some (sanitizeString e))
          course := row.course.bind (fun cs => if cs = [] then none
            else some (sanitizeString cs))
          date := row.date.bind (fun d => if d = [] then none
            else some (env.formatDate d))
          grade := row.grade.bind (fun g => if g = [] then none
            else some (sanitizeString g)) }
      (some p, emailErrs ++ dateErrs)

end CSV

/-! ### Properties of the two `wrapText` implementations -/

/-- All words of all lines, in order. -/
def flatWords (L : List Str) : List Str := L.flatMap wordsOf

theorem mem_singleton_of_length_le_one {α : Type} {l : List α} {a : α}
    (h : a ∈ l) (hl : l.length ≤ 1) : l = [a] := by
  cases l with
  | nil => cases h
  | cons x xs =>
    cases xs with
    | nil => simp at h; simp [h]
    | cons y ys => simp at hl

/-- The step of VariantA's `wrapText` coincides pointwise with the step of the
specification's greedy wrap. -/
theorem wrapA_step_eq_spec_step (m : Str → ℚ) (W : ℚ)
    (acc : List Str × Str) (word : Str) :
    VariantA.wrapStep m W acc word = wrapSpecStep m W acc word := by
  unfold VariantA.wrapStep wrapSpecStep
  by_cases hc : acc.2 = []
  · simp [hc]
  · by_cases hm : m (acc.2 ++ ' ' :: word) ≤ W
    · have h1 : ¬ (m ((acc.2 ++ [' ']) ++ word) > W) := by
        simpa [List.append_assoc] using not_lt.mpr hm
      simp [hc, hm, h1, List.append_assoc]
    · have h1 : m ((acc.2 ++ [' ']) ++ word) > W := by
        simpa [List.append_assoc] using not_le.mp hm
      simp [hc, hm, h1, List.append_assoc]

theorem wrapStepA_push (m : Str → ℚ) (W : ℚ) (lines : List Str) (cur w : Str)
    (h : m ((cur ++ (if cur = [] then [] else [' '])) ++ w) > W ∧ cur ≠ []) :
    VariantA.wrapStep m W (lines, cur) w = (lines ++ [cur], w) := by
  unfold VariantA.wrapStep
  exact if_pos h

theorem wrapStepA_extend (m : Str → ℚ) (W : ℚ) (lines : List Str) (cur w : Str)
    (h : ¬ (m ((cur ++ (if cur = [] then [] else [' '])) ++ w) > W ∧ cur ≠ [])) :
    VariantA.wrapStep m W (lines, cur) w
      = (lines, (cur ++ (if cur = [] then [] else [' '])) ++ w) := by
  unfold VariantA.wrapStep
  exact if_neg h

theorem wrapStepB_extend (m : Str → ℚ) (W : ℚ) (lines : List Str) (cur w : Str)
    (h : m (cur ++ ' ' :: w) < W) :
    VariantB.wrapStep m W (lines, cur) w = (lines, cur ++ ' ' :: w) := by
  unfold VariantB.wrapStep
  exact if_pos h

theorem wrapStepB_push (m : Str → ℚ) (W : ℚ) (lines : List Str) (cur w : Str)
    (h : ¬ m (cur ++ ' ' :: w) < W) :
    VariantB.wrapStep m W (lines, cur) w = (lines ++ [cur], w) := by
  unfold VariantB.wrapStep
  exact if_neg h

/-- VariantA's `wrapText` computes exactly the specification's greedy wrap. -/
theorem wrapText_A_eq_spec (m : Str → ℚ) (W : ℚ) (t : Str) :
    VariantA.wrapText m W t = wrapSpecGreedy m W t := by
  simp only [VariantA.wrapText, wrapSpecGreedy]
  have hfold : (splitSp t).foldl (VariantA.wrapStep m W) ([], [])
      = (splitSp t).foldl (wrapSpecStep m W) ([], []) :=
    List.foldl_ext _ _ _ (fun acc word _ => wrapA_step_eq_spec_step m W acc word)
  rw [hfold]

/-- Fold invariant for VariantA's wrap: the words in the closed lines plus the
current line are exactly the words already consumed. -/
theorem wrapA_fold_words (m : Str → ℚ) (W : ℚ) (ws : List Str) :
    ∀ (lines : List Str) (cur : Str),
    flatWords ((ws.foldl (VariantA.wrapStep m W) (lines, cur)).1)
      ++ wordsOf ((ws.foldl (VariantA.wrapStep m W) (lines, cur)).2)
  = flatWords lines ++ wordsOf cur ++ ws.flatMap wordsOf := by
  induction ws with
  | nil => intro lines cur; simp
  | cons w ws ih =>
    intro lines cur
    rw [List.foldl_cons]
    by_cases hcond : m ((cur ++ (if cur = [] then [] else [' '])) ++ w) > W ∧ cur ≠ []
    · rw [wrapStepA_push m W lines cur w hcond, ih]
      simp [flatWords, List.flatMap_append]
    · rw [wrapStepA_extend m W lines cur w hcond, ih]
      by_cases hc : cur = []
      · simp [hc, wordsOf_nil]
      · simp only [hc, ite_false, List.append_assoc, List.singleton_append]
        rw [wordsOf_append_space]
        simp

/-- VariantA's `wrapText` keeps exactly the words of its input, in order:
no word is lost, duplicated, reordered, or broken mid-word. -/
theorem wrapText_A_words (m : Str → ℚ) (W : ℚ) (t : Str) :
    flatWords (VariantA.wrapText m W t) = wordsOf t := by
  simp only [VariantA.wrapText]
  have h := wrapA_fold_words m W (splitSp t) [] []
  have hsplit : (splitSp t).flatMap wordsOf = wordsOf t := flatMap_wordsOf_splitSp t
  set r := (splitSp t).foldl (VariantA.wrapStep m W) ([], []) with hr
  by_cases hc : r.2 = []
  · rw [if_pos hc]
    rw [hc] at h
    simpa [flatWords, wordsOf_nil, hsplit] using h
  · rw [if_neg hc]
    have h2 : flatWords (r.1 ++ [r.2]) = flatWords r.1 ++ wordsOf r.2 := by
      simp [flatWords, List.flatMap_append]
    rw [h2]
    simpa [flatWords, hsplit] using h

/-- Fold invariant for VariantB's wrap. -/
theorem wrapB_fold_words (m : Str → ℚ) (W : ℚ) (ws : List Str) :
    ∀ (lines : List Str) (cur : Str),
    flatWords ((ws.foldl (VariantB.wrapStep m W) (lines, cur)).1)
      ++ wordsOf ((ws.foldl (VariantB.wrapStep m W) (lines, cur)).2)
  = flatWords lines ++ wordsOf cur ++ ws.flatMap wordsOf := by
  induction ws with
  | nil => intro lines cur; simp
  | cons w ws ih =>
    intro lines cur
    rw [List.foldl_cons]
    by_cases hcond : m (cur ++ ' ' :: w) < W
    · rw [wrapStepB_extend m W lines cur w hcond, ih, wordsOf_append_space]
      simp
    · rw [wrapStepB_push m W lines cur w hcond, ih]
      simp [flatWords, List.flatMap_append]

/-- VariantB's `wrapText` also keeps exactly the words of its input, in
order. -/
theorem wrapText_B_words (m : Str → ℚ) (W : ℚ) (t : Str) :
    flatWords (VariantB.wrapText m W t) = wordsOf t := by
  obtain ⟨w0, ws, hsp⟩ : ∃ w0 ws, splitSp t = w0 :: ws := by
    cases h : splitSp t with
    | nil => exact absurd h (splitSp_ne_nil t)
    | cons w0 ws => exact ⟨w0, ws, rfl⟩
  simp only [VariantB.wrapText, hsp]
  have h := wrapB_fold_words m W ws [] w0
  have hsplit : (splitSp t).flatMap wordsOf = wordsOf t := flatMap_wordsOf_splitSp t
  rw [hsp, List.flatMap_cons] at hsplit
  set r := ws.foldl (VariantB.wrapStep m W) ([], w0) with hr
  have h2 : flatWords (r.1 ++ [r.2]) = flatWords r.1 ++ wordsOf r.2 := by
    simp [flatWords, List.flatMap_append]
  rw [h2, ← hsplit]
  simpa [flatWords] using h

/-- Under a prefix/suffix-monotone measure, a word of a line is at most as
wide as the line. -/
theorem measure_word_le_line (m : Str → ℚ)
    (h1 : ∀ a b : Str, m b ≤ m (a ++ b)) (h2 : ∀ a b : Str, m a ≤ m (a ++ b))
    {w l : Str} (hw : w ∈ wordsOf l) : m w ≤ m l := by
  obtain ⟨u, v, huv⟩ := wordsOf_mem_infix hw
  calc m w ≤ m (w ++ v) := h2 w v
    _ ≤ m (u ++ (w ++ v)) := h1 u (w ++ v)
    _ = m l := by rw [huv]

/-- Fold invariant for VariantA's wrap: every closed line, and the current
line, either has at most one word or measures at most `W`. -/
theorem wrapA_fold_lineOk (m : Str → ℚ) (W : ℚ) (ws : List Str)
    (hws : ∀ w ∈ ws, ∀ c ∈ w, c ≠ ' ') :
    ∀ (lines : List Str) (cur : Str),
    (∀ l ∈ lines, (wordsOf l).length ≤ 1 ∨ m l ≤ W) →
    ((wordsOf cur).length ≤ 1 ∨ m cur ≤ W) →
    (∀ l ∈ (ws.foldl (VariantA.wrapStep m W) (lines, cur)).1,
        (wordsOf l).length ≤ 1 ∨ m l ≤ W)
    ∧ ((wordsOf ((ws.foldl (VariantA.wrapStep m W) (lines, cur)).2)).length ≤ 1
        ∨ m ((ws.foldl (VariantA.wrapStep m W) (lines, cur)).2) ≤ W) := by
  induction ws with
  | nil => intro lines cur hl hc; exact ⟨hl, hc⟩
  | cons w ws ih =>
    intro lines cur hl hc
    have hwworks : (wordsOf w).length ≤ 1 := by
      rw [wordsOf_of_no_space (hws w (List.mem_cons_self w ws))]
      split <;> simp
    have hws' : ∀ x ∈ ws, ∀ c ∈ x, c ≠ ' ' :=
      fun x hx => hws x (List.mem_cons_of_mem w hx)
    rw [List.foldl_cons]
    by_cases hcond : m ((cur ++ (if cur = [] then [] else [' '])) ++ w) > W ∧ cur ≠ []
    · rw [wrapStepA_push m W lines cur w hcond]
      refine ih hws' _ _ ?_ (Or.inl hwworks)
      intro l hlmem
      rcases List.mem_append.mp hlmem with h | h
      · exact hl l h
      · rw [List.mem_singleton.mp h]; exact hc
    · rw [wrapStepA_extend m W lines cur w hcond]
      refine ih hws' _ _ hl ?_
      by_cases hcur : cur = []
      · subst hcur
        simpa using Or.inl hwworks
      · have hle : m ((cur ++ [' ']) ++ w) ≤ W := by
          rcases not_and_or.mp hcond with h | h
          · simpa [hcur] using not_lt.mp (by simpa [hcur] using h)
          · exact absurd hcur (by simpa using h)
        simpa [hcur] using Or.inr hle

/-- Fold invariant for VariantB's wrap. -/
theorem wrapB_fold_lineOk (m : Str → ℚ) (W : ℚ) (ws : List Str)
    (hws : ∀ w ∈ ws, ∀ c ∈ w, c ≠ ' ') :
    ∀ (lines : List Str) (cur : Str),
    (∀ l ∈ lines, (wordsOf l).length ≤ 1 ∨ m l < W) →
    ((wordsOf cur).length ≤ 1 ∨ m cur < W) →
    (∀ l ∈ (ws.foldl (VariantB.wrapStep m W) (lines, cur)).1,
        (wordsOf l).length ≤ 1 ∨ m l < W)
    ∧ ((wordsOf ((ws.foldl (VariantB.wrapStep m W) (lines, cur)).2)).length ≤ 1
        ∨ m ((ws.foldl (VariantB.wrapStep m W) (lines, cur)).2) < W) := by
  induction ws with
  | nil => intro lines cur hl hc; exact ⟨hl, hc⟩
  | cons w ws ih =>
    intro lines cur hl hc
    have hwworks : (wordsOf w).length ≤ 1 := by
      rw [wordsOf_of_no_space (hws w (List.mem_cons_self w ws))]
      split <;> simp
    have hws' : ∀ x ∈ ws, ∀ c ∈ x, c ≠ ' ' :=
      fun x hx => hws x (List.mem_cons_of_mem w hx)
    rw [List.foldl_cons]
    by_cases hcond : m (cur ++ ' ' :: w) < W
    · rw [wrapStepB_extend m W lines cur w hcond]
      exact ih hws' _ _ hl (Or.inr hcond)
    · rw [wrapStepB_push m W lines cur w hcond]
      refine ih hws' _ _ ?_ (Or.inl hwworks)
      intro l hlmem
      rcases List.mem_append.mp hlmem with h | h
      · exact hl l h
      · rw [List.mem_singleton.mp h]; exact hc

/-- Every line VariantA's `wrapText` returns has at most one word or fits in
`maxWidth`. -/
theorem wrapText_A_lineOk (m : Str → ℚ) (W : ℚ) (t : Str) :
    ∀ l ∈ VariantA.wrapText m W t, (wordsOf l).length ≤ 1 ∨ m l ≤ W := by
  simp only [VariantA.wrapText]
  have h := wrapA_fold_lineOk m W (splitSp t)
    (fun w hw => no_space_of_mem_splitSp hw) [] []
    (by simp) (by simp [wordsOf_nil])
  set r := (splitSp t).foldl (VariantA.wrapStep m W) ([], []) with hr
  intro l hlmem
  by_cases hc : r.2 = []
  · rw [if_pos hc] at hlmem
    exact h.1 l hlmem
  · rw [if_neg hc] at hlmem
    rcases List.mem_append.mp hlmem with hmem | hmem
    · exact h.1 l hmem
    · rw [List.mem_singleton.mp hmem]
      exact h.2

/-- Every line VariantB's `wrapText` returns has at most one word or measures
strictly below `maxWidth`. -/
theorem wrapText_B_lineOk (m : Str → ℚ) (W : ℚ) (t : Str) :
    ∀ l ∈ VariantB.wrapText m W t, (wordsOf l).length ≤ 1 ∨ m l < W := by
  obtain ⟨w0, ws, hsp⟩ : ∃ w0 ws, splitSp t = w0 :: ws := by
    cases h : splitSp t with
    | nil => exact absurd h (splitSp_ne_nil t)
    | cons w0 ws => exact ⟨w0, ws, rfl⟩
  simp only [VariantB.wrapText, hsp]
  have hw0 : (wordsOf w0).length ≤ 1 := by
    rw [wordsOf_of_no_space (no_space_of_mem_splitSp (by rw [hsp]; exact List.mem_cons_self _ _))]
    split <;> simp
  have h := wrapB_fold_lineOk m W ws
    (fun w hw => no_space_of_mem_splitSp (by rw [hsp]; exact List.mem_cons_of_mem _ hw))
    [] w0 (by simp) (Or.inl hw0)
  set r := ws.foldl (VariantB.wrapStep m W) ([], w0) with hr
  intro l hlmem
  rcases List.mem_append.mp hlmem with hmem | hmem
  · exact h.1 l hmem
  · rw [List.mem_singleton.mp hmem]
    exact h.2

/-- In either variant, a word wider than `maxWidth` under a monotone measure
ends up alone on its line (never broken, never merged). -/
theorem wrapText_own_line (m : Str → ℚ) (W : ℚ) (t : Str)
    (h1 : ∀ a b : Str, m b ≤ m (a ++ b)) (h2 : ∀ a b : Str, m a ≤ m (a ++ b)) :
    (∀ l ∈ VariantA.wrapText m W t, ∀ w ∈ wordsOf l, W < m w → wordsOf l = [w])
    ∧ (∀ l ∈ VariantB.wrapText m W t, ∀ w ∈ wordsOf l, W < m w → wordsOf l = [w]) := by
  constructor
  · intro l hl w hw hwide
    rcases wrapText_A_lineOk m W t l hl with hlen | hfit
    · exact mem_singleton_of_length_le_one hw hlen
    · exact absurd (le_trans (measure_word_le_line m h1 h2 hw) hfit)
        (not_le.mpr hwide)
  · intro l hl w hw hwide
    rcases wrapText_B_lineOk m W t l hl with hlen | hfit
    · exact mem_singleton_of_length_le_one hw hlen
    · exact absurd (le_of_lt (lt_of_le_of_lt (measure_word_le_line m h1 h2 hw) hfit))
        (not_le.mpr hwide)

/-- VariantA's `wrapText` on the empty string returns no lines. -/
theorem wrapText_A_nil (m : Str → ℚ) (W : ℚ) :
    VariantA.wrapText m W [] = [] := by
  simp [VariantA.wrapText, splitSp, VariantA.wrapStep]

/-- VariantB's `wrapText` on the empty string returns one empty line. -/
theorem wrapText_B_nil (m : Str → ℚ) (W : ℚ) :
    VariantB.wrapText m W [] = [[]] := by
  simp [VariantB.wrapText, splitSp]

/-! ### Characterisation of the batch orchestrator -/

namespace Batch

/-- Closed form of the batch loop: appended files for the successes, appended
error messages for the caught failures, one render call per record, all in
input order. -/
theorem foldl_batchStep_spec (env : BatchEnv) (t : CertificateTemplate)
    (qrm : Option (List (Str × String))) (includeQR : Bool)
    (ps : List Participant) :
    ∀ acc : BatchOutput,
    ps.foldl (batchStep env t qrm includeQR) acc
  = { files := acc.files ++ ps.filterMap (fun p =>
        match env.renderResult (mkCall t qrm includeQR p) with
        | Except.ok d => some (fileNameFor p, d)
        | Except.error _ => none)
      errors := acc.errors ++ ps.filterMap (fun p =>
        match env.renderResult (mkCall t qrm includeQR p) with
        | Except.ok _ => none
        | Except.error _ => some (errMsgFor p))
      calls := acc.calls ++ ps.map (mkCall t qrm includeQR) } := by
  induction ps with
  | nil => intro acc; simp
  | cons p ps ih =>
    intro acc
    rw [List.foldl_cons, ih]
    unfold batchStep
    cases hres : env.renderResult (mkCall t qrm includeQR p) <;>
      simp [hres, List.filterMap_cons]

/-- Closed form of `generateBatchCertificates` for a nonempty batch. -/
theorem generateBatchCertificates_spec (env : BatchEnv) (ps : List Participant)
    (t : CertificateTemplate) (includeQR : Bool) (baseUrl : String)
    (h : ps ≠ []) :
    generateBatchCertificates env ps t includeQR baseUrl
  = { files := ps.filterMap (fun p =>
        match env.renderResult
            (mkCall t (qrPhase env ps includeQR baseUrl).1 includeQR p) with
        | Except.ok d => some (fileNameFor p, d)
        | Except.error _ => none)
      errors := (qrPhase env ps includeQR baseUrl).2 ++ ps.filterMap (fun p =>
        match env.renderResult
            (mkCall t (qrPhase env ps includeQR baseUrl).1 includeQR p) with
        | Except.ok _ => none
        | Except.error _ => some (errMsgFor p))
      calls := ps.map (mkCall t (qrPhase env ps includeQR baseUrl).1 includeQR) } := by
  unfold generateBatchCertificates
  rw [if_neg (by simpa [List.isEmpty_iff] using h)]
  rw [foldl_batchStep_spec]
  simp

/-- A per-record failure message never coincides with the aggregate QR
message (they differ at character 19). -/
theorem errMsgFor_ne_qrAggMsg (p : Participant) : errMsgFor p ≠ qrAggMsg := by
  intro h
  have h19 : (errMsgFor p)[19]? = qrAggMsg[19]? := by rw [h]
  rw [errMsgFor, List.getElem?_append_left (by decide)] at h19
  revert h19
  decide

end Batch

/-! ### Renderer-level helper lemmas -/

/-- The part_003 render is insensitive to the initial context state: the
border sets stroke style and line width, the title sets font, fill style,
alignment and baseline, before any later read, so two renders from arbitrary
context states produce identical results.  This is what makes reusing one
canvas context across sequential renders safe. -/
theorem renderB_ctx_indep (env : RenderEnv) (cfg : VariantB.Config)
    (c0 c0' : Ctx) :
    VariantB.renderCertificate env cfg c0
      = VariantB.renderCertificate env cfg c0' := by
  unfold VariantB.renderCertificate VariantB.drawBorder VariantB.drawTitle
  cases hlogo : cfg.template.logoUrl with
  | none => simp [hlogo]
  | some u =>
    unfold VariantB.drawLogo
    cases hload : env.loadImage u <;> simp [hlogo, hload]

/-- With no QR image available, the part_003 render is identical to the same
render with QR inclusion disabled: nothing at all is drawn for QR. -/
theorem renderB_no_qr_image (env : RenderEnv) (cfg : VariantB.Config)
    (c0 : Ctx) (h : cfg.qrCodeUrl = none) :
    VariantB.renderCertificate env cfg c0
      = VariantB.renderCertificate env { cfg with includeQR := false } c0 := by
  unfold VariantB.renderCertificate
  simp [h]

/-- With no QR image available and the template's `includeQRCode` flag clear,
the certificateRenderer.ts render likewise coincides with the QR-disabled
render. -/
theorem renderA_no_qr_image (env : RenderEnv) (cfg : VariantA.ConfigA)
    (c0 : Ctx) (h1 : cfg.qrCodeUrl = none)
    (h2 : cfg.template.includeQRCode = false) :
    VariantA.renderCertificate env cfg c0
      = VariantA.renderCertificate env { cfg with includeQR := false } c0 := by
  unfold VariantA.renderCertificate
  simp [h1, h2]

/-- The part_003 render always succeeds: every image-load promise resolves on
both its `onload` and its `onerror` path, so the `catch` that would produce
`Failed to render certificate` is unreachable. -/
theorem renderB_ok (env : RenderEnv) (cfg : VariantB.Config) (c0 : Ctx) :
    ∃ v, VariantB.renderCertificate env cfg c0 = Except.ok v :=
  ⟨_, rfl⟩

/-- A failed logo load in part_003 draws nothing and leaves the context
untouched. -/
theorem drawLogo_onerror (env : RenderEnv) (t : CertificateTemplate)
    (url : String) (c : Ctx) (h : env.loadImage url = none) :
    VariantB.drawLogo env t url c = ([], c) := by
  unfold VariantB.drawLogo
  rw [h]

/-- A failed signature load in part_003 draws nothing. -/
theorem drawSignature_onerror (env : RenderEnv) (t : CertificateTemplate)
    (url : String) (c : Ctx) (h : env.loadImage url = none) :
    VariantB.drawSignature env t url c = ([], c) := by
  unfold VariantB.drawSignature
  rw [h]

/-- A failed QR load in part_003 draws nothing. -/
theorem drawQRCode_onerror (env : RenderEnv) (t : CertificateTemplate)
    (url : String) (c : Ctx) (h : env.loadImage url = none) :
    VariantB.drawQRCode env t url c = ([], c) := by
  unfold VariantB.drawQRCode
  rw [h]

/-- A failed logo/signature load in certificateRenderer.ts draws nothing and
continues. -/
theorem renderImage_onerror (env : RenderEnv) (w h : ℚ) (url : String)
    (pos : Pos) (vert : VariantA.VPos) (c : Ctx)
    (hld : env.loadImage url = none) :
    VariantA.renderImage env w h url pos vert c = ([], c) := by
  unfold VariantA.renderImage
  rw [hld]

/-! ### Body text characterisation -/

/-- Projection of a trace to its text draws: text, font weight, font size and
paint, forgetting coordinates. -/
def textSig : DrawOp → Option (Str × Weight × ℚ × Paint)
  | DrawOp.fillText s _ _ f p _ _ => some (s, f.weight, f.size, p)
  | _ => none

/-- When the split has a single part the separator does not occur, and
`replace` is the identity. -/
theorem replaceFirst_of_single {sep s : Str} (h : (splitSeq sep s).length = 1)
    (repl : Str) : replaceFirst sep repl s = s := by
  unfold replaceFirst
  obtain ⟨x, hx⟩ : ∃ x, splitSeq sep s = [x] := by
    cases hsp : splitSeq sep s with
    | nil => rw [hsp] at h; simp at h
    | cons a as =>
      cases as with
      | nil => exact ⟨a, rfl⟩
      | cons b bs => rw [hsp] at h; simp at h
  rw [hx]

/-- The text draws of `lineOps` are the wrapped lines at the context's font
and paint. -/
theorem lineOps_textSig (c : Ctx) (x startY lineH : ℚ) (ls : List Str) :
    (VariantB.lineOps c x startY lineH ls).filterMap textSig
  = ls.map (fun l => (l, c.font.weight, c.font.size, c.fillStyle)) := by
  unfold VariantB.lineOps
  rw [List.filterMap_map]
  have h : ∀ q : Nat × Str,
      (textSig ∘ fun p => DrawOp.fillText p.2 x (startY + (p.1 : ℚ) * lineH)
        c.font c.fillStyle c.textAlign c.textBaseline) q
      = some (q.2, c.font.weight, c.font.size, c.fillStyle) := by
    intro q; rfl
  calc (ls.enum).filterMap (textSig ∘ fun p =>
        DrawOp.fillText p.2 x (startY + (p.1 : ℚ) * lineH) c.font c.fillStyle
          c.textAlign c.textBaseline)
      = (ls.enum).map (fun q => (q.2, c.font.weight, c.font.size, c.fillStyle)) := by
        rw [List.filterMap_eq_map_iff_forall_eq_some.mpr]
        intro q _
        exact h q
    _ = ls.map (fun l => (l, c.font.weight, c.font.size, c.fillStyle)) := by
        have h2 : (fun (q : Nat × Str) =>
            (q.2, c.font.weight, c.font.size, c.fillStyle))
          = (fun l : Str => (l, c.font.weight, c.font.size, c.fillStyle))
              ∘ Prod.snd := rfl
        rw [h2, ← List.map_map, List.enum_map_snd]

/-- General form of `lineOps_textSig` for an arbitrary per-line vertical
position, stated on the composed `filterMap` that `simp` produces. -/
theorem filterMap_textSig_enum (f : Nat × Str → ℚ) (ls : List Str) (x : ℚ)
    (font : Font) (paint : Paint) (align baseline : String) :
    List.filterMap (textSig ∘ fun q => DrawOp.fillText q.2 x (f q) font paint
      align baseline) ls.enum
  = ls.map (fun l => (l, font.weight, font.size, paint)) := by
  calc (ls.enum).filterMap (textSig ∘ fun q =>
        DrawOp.fillText q.2 x (f q) font paint align baseline)
      = (ls.enum).map (fun q => (q.2, font.weight, font.size, paint)) := by
        rw [List.filterMap_eq_map_iff_forall_eq_some.mpr]
        intro q _
        rfl
    _ = ls.map (fun l => (l, font.weight, font.size, paint)) := by
        have h2 : (fun (q : Nat × Str) => (q.2, font.weight, font.size, paint))
          = (fun l : Str => (l, font.weight, font.size, paint)) ∘ Prod.snd := rfl
        rw [h2, ← List.map_map, List.enum_map_snd]

/-- part_003 body drawing with exactly one `{name}` placeholder: the text
draws are precisely the wrapped before-segment at `bodySize`/`bodyColor`, the
unwrapped participant name bold at `participantNameSize` and
`participantNameColor`, the wrapped after-segment at `bodySize`/`bodyColor`,
then the optional course (italic) and grade (bold) lines. -/
theorem drawBodyText_B_placeholder (env : RenderEnv) (t : CertificateTemplate)
    (p : Participant) (c : Ctx) {seg0 seg1 : Str}
    (h : splitSeq nameTok t.bodyText = [seg0, seg1]) :
    (VariantB.drawBodyText env t p c).1.filterMap textSig
  = (if trimStr seg0 ≠ [] then
       (VariantB.wrapText
          (env.measure ⟨Weight.normal, t.bodySize, t.bodyFont⟩) (t.width - 100)
          (trimStr seg0)).map
         (fun l => (l, Weight.normal, t.bodySize, Paint.color t.bodyColor))
     else [])
    ++ [(p.name, Weight.bold, t.participantNameSize,
          Paint.color t.participantNameColor)]
    ++ (if trimStr seg1 ≠ [] then
          (VariantB.wrapText
             (env.measure ⟨Weight.normal, t.bodySize, t.bodyFont⟩) (t.width - 100)
             (trimStr seg1)).map
            (fun l => (l, Weight.normal, t.bodySize, Paint.color t.bodyColor))
        else [])
    ++ (match p.course with
        | some cs => [(("Course: ").toList ++ cs, Weight.italic, t.bodySize - 4,
            Paint.color t.bodyColor)]
        | none => [])
    ++ (match p.grade with
        | some g => [(("Grade: ").toList ++ g, Weight.bold, t.bodySize - 2,
            Paint.color t.bodyColor)]
        | none => []) := by
  cases hco : p.course <;> cases hgr : p.grade <;>
    by_cases hb : trimStr seg0 = [] <;> by_cases ha : trimStr seg1 = [] <;>
    simp [VariantB.drawBodyText, h, hco, hgr, hb, ha, lineOps_textSig, textSig,
      List.filterMap_append]

/-- part_003 body drawing with no `{name}` placeholder: the whole body text is
wrapped as one block at `bodySize`/`bodyColor` (the name is not inserted),
followed by the optional course and grade lines. -/
theorem drawBodyText_B_block (env : RenderEnv) (t : CertificateTemplate)
    (p : Participant) (c : Ctx) {whole : Str}
    (h : splitSeq nameTok t.bodyText = [whole]) :
    (VariantB.drawBodyText env t p c).1.filterMap textSig
  = (VariantB.wrapText (env.measure ⟨Weight.normal, t.bodySize, t.bodyFont⟩)
       (t.width - 100) t.bodyText).map
      (fun l => (l, Weight.normal, t.bodySize, Paint.color t.bodyColor))
    ++ (match p.course with
        | some cs => [(("Course: ").toList ++ cs, Weight.italic, t.bodySize - 4,
            Paint.color t.bodyColor)]
        | none => [])
    ++ (match p.grade with
        | some g => [(("Grade: ").toList ++ g, Weight.bold, t.bodySize - 2,
            Paint.color t.bodyColor)]
        | none => []) := by
  have hrep : replaceFirst nameTok p.name t.bodyText = t.bodyText :=
    replaceFirst_of_single (by rw [h]; rfl) p.name
  cases hco : p.course <;> cases hgr : p.grade <;>
    simp [VariantB.drawBodyText, h, hco, hgr, lineOps_textSig, textSig,
      List.filterMap_append, hrep]

/-- certificateRenderer.ts body drawing with exactly one `{name}` placeholder
and a nonempty participant name: wrapped before-segment, the name bold at
`nameSize`/`nameColor` unwrapped, wrapped after-segment. -/
theorem renderBodyText_A_spec (env : RenderEnv) (w : ℚ) (text : Str) (size : ℚ)
    (color : String) (n : Str) (nameSize : ℚ) (nameColor : String) (c : Ctx)
    {seg0 seg1 : Str} (h : splitSeq nameTok text = [seg0, seg1]) (hn : n ≠ [])
    (hns : nameSize ≠ 0) (hnc : nameColor ≠ "") :
    (VariantA.renderBodyText env w text size color (some n) nameSize nameColor
        c).1.filterMap textSig
  = (if trimStr seg0 ≠ [] then
       (VariantA.wrapText
          (env.measure ⟨Weight.normal, size, VariantA.getFont⟩) (w - 100)
          (trimStr seg0)).map
         (fun l => (l, Weight.normal, size, Paint.color color))
     else [])
    ++ [(n, Weight.bold, nameSize, Paint.color nameColor)]
    ++ (if trimStr seg1 ≠ [] then
          (VariantA.wrapText
             (env.measure ⟨Weight.normal, size, VariantA.getFont⟩) (w - 100)
             (trimStr seg1)).map
            (fun l => (l, Weight.normal, size, Paint.color color))
        else []) := by
  have hne : n.isEmpty = false := by simpa [List.isEmpty_iff] using hn
  by_cases hb : trimStr seg0 = [] <;> by_cases ha : trimStr seg1 = [] <;>
    simp [VariantA.renderBodyText, h, hne, hns, hnc, hb, ha,
      filterMap_textSig_enum, textSig, List.filterMap_append]

/-- certificateRenderer.ts body drawing with no `{name}` placeholder: the
whole text is wrapped as one block; the participant's name is not inserted. -/
theorem renderBodyText_A_block (env : RenderEnv) (w : ℚ) (text : Str)
    (size : ℚ) (color : String) (pn : Option Str) (nameSize : ℚ)
    (nameColor : String) (c : Ctx) {whole : Str}
    (h : splitSeq nameTok text = [whole]) :
    (VariantA.renderBodyText env w text size color pn nameSize nameColor
        c).1.filterMap textSig
  = (VariantA.wrapText (env.measure ⟨Weight.normal, size, VariantA.getFont⟩)
       (w - 100) text).map
      (fun l => (l, Weight.normal, size, Paint.color color)) := by
  have hrep : ∀ r, replaceFirst nameTok r text = text :=
    fun r => replaceFirst_of_single (by rw [h]; rfl) r
  cases pn with
  | none =>
    simp [VariantA.renderBodyText, h, filterMap_textSig_enum, textSig]
  | some n =>
    by_cases hn : n = []
    · simp [VariantA.renderBodyText, h, hn, filterMap_textSig_enum, textSig]
    · have hne : n.isEmpty = false := by simpa [List.isEmpty_iff] using hn
      simp [VariantA.renderBodyText, h, hne, filterMap_textSig_enum, textSig,
        hrep]

/-! ### Concrete fixtures for witnesses and counterexamples -/

/-- A fresh 2D context in its default-like state. -/
def ctx0 : Ctx :=
  { font := ⟨Weight.normal, 10, "sans-serif"⟩
    fillStyle := Paint.color "#000000"
    strokeStyle := Paint.color "#000000"
    lineWidth := 1
    textAlign := "start"
    textBaseline := "alphabetic" }

/-- An environment in which every image load fails and measurement returns 0. -/
def envNone : RenderEnv :=
  { measure := fun _ _ => 0
    loadImage := fun _ => none
    today := ("1/1/2026").toList }

/-- A concrete participant. -/
def alice : Participant :=
  { id := ("p1").toList, name := ("Alice").toList, email := none,
    course := none, date := none, grade := none }

/-- A second concrete participant. -/
def bob : Participant :=
  { id := ("p2").toList, name := ("Bob").toList, email := none,
    course := none, date := none, grade := none }

/-- A concrete `CertificateTemplate`. -/
def tmplB0 : CertificateTemplate :=
  { id := ("t1").toList, name := ("Classic").toList, width := 800, height := 600,
    backgroundColor := "#fdfdfd", titleText := ("Certificate").toList,
    titleFont := "Georgia", titleSize := 36, titleColor := "#222222",
    bodyText := ("Awarded to {name} with honors").toList, bodyFont := "Georgia",
    bodySize := 16, bodyColor := "#333333", participantNameSize := 28,
    participantNameColor := "#aa0000", logoUrl := none, logoPosition := none,
    signatureUrl := none, signaturePosition := none }

/-- A concrete certificateRenderer.ts template with the QR placeholder flag
set and an empty body. -/
def tmplA0 : VariantA.TemplateA :=
  { width := 800, height := 600, backgroundColor := "#f0f0f0",
    titleText := ("Certificate").toList, titleSize := 36,
    titleColor := "#222222", bodyText := [], bodyTextSize := 16,
    bodyTextColor := "#333333", participantNameSize := 28,
    participantNameColor := "#aa0000", logoUrl := none, logoPosition := none,
    signatureUrl := none, signaturePosition := none, includeQRCode := true }

/-- The same template with the placeholder flag clear. -/
def tmplA1 : VariantA.TemplateA := { tmplA0 with includeQRCode := false }

/-- QR requested but no QR image available, placeholder flag set. -/
def cfgC1 : VariantA.ConfigA :=
  { template := tmplA0, participant := none, qrCodeUrl := none, includeQR := true }

/-- QR requested but no QR image available, placeholder flag clear. -/
def cfgA1 : VariantA.ConfigA :=
  { template := tmplA1, participant := none, qrCodeUrl := none, includeQR := true }

/-- part_003 config with QR requested but no QR image available. -/
def cfgB1 : VariantB.Config :=
  { template := tmplB0, participant := alice, qrCodeUrl := none, includeQR := true }

/-- Batch environment: QR phase succeeds with an empty map, rendering fails
exactly for Alice. -/
def envFailAlice : Batch.BatchEnv :=
  { qrBatch := fun _ _ => Except.ok []
    renderResult := fun call =>
      if call.participant.name = ("Alice").toList then Except.error ()
      else Except.ok "data:image/png;base64,ok" }

/-- Batch environment: the whole QR phase fails, every render succeeds. -/
def envQrFail : Batch.BatchEnv :=
  { qrBatch := fun _ _ => Except.error ()
    renderResult := fun _ => Except.ok "data:image/png;base64,ok" }

/-- Batch environment: everything succeeds. -/
def envAllOk : Batch.BatchEnv :=
  { qrBatch := fun _ _ => Except.ok []
    renderResult := fun _ => Except.ok "data:image/png;base64,ok" }

/-- Word-length measurement (one unit per character), which is monotone. -/
def mlen : Str → ℚ := fun s => (s.length : ℚ)

theorem mlen_suffix (a b : Str) : mlen b ≤ mlen (a ++ b) := by
  simp only [mlen, List.length_append]
  exact_mod_cast Nat.le_add_left _ _

theorem mlen_prefix (a b : Str) : mlen a ≤ mlen (a ++ b) := by
  simp only [mlen, List.length_append]
  exact_mod_cast Nat.le_add_right _ _

/-- CSV environment fixture. -/
def envCsv : CSV.CsvEnv :=
  { nowMs := 1700000000000
    emailOk := fun _ => true
    dateOk := fun _ => true
    formatDate := fun d => d }

/-- A CSV row whose name consists solely of angle brackets. -/
def rowAngle : CSV.Row :=
  { name := some (("<>").toList), email := none, course := none, date := none,
    grade := none }

/-- A CSV row with an ordinary name. -/
def rowAlice : CSV.Row :=
  { name := some (("  Alice  ").toList), email := none, course := none,
    date := none, grade := none }

/-! ### Claim theorems -/

/-- C2 counterexample: with a character-count measure, the line `"a b"`
measures exactly `maxWidth = 3`, which "does not exceed" `maxWidth`, so the
claimed greedy rule keeps `"a b"` on one line; part_003's `wrapText` uses a
strict `<` comparison and closes the line already at exact equality,
returning two lines. -/
theorem C2_counterexample :
    mlen ['a', ' ', 'b'] ≤ 3
    ∧ VariantB.wrapText mlen 3 ['a', ' ', 'b'] = [['a'], ['b']]
    ∧ wrapSpecGreedy mlen 3 ['a', ' ', 'b'] = [['a', ' ', 'b']] := by
  have hsp : splitSp ['a', ' ', 'b'] = [['a'], ['b']] := by decide
  refine ⟨by norm_num [mlen], ?_, ?_⟩
  · simp only [VariantB.wrapText, hsp, List.foldl_cons, List.foldl_nil]
    norm_num [VariantB.wrapStep, mlen]
  · simp only [wrapSpecGreedy, hsp, List.foldl_cons, List.foldl_nil]
    norm_num [wrapSpecStep, mlen]
    decide

/-- C2 (amended): certificateRenderer.ts's `wrapText` is exactly the claimed
greedy word-wrap (accumulate while the measured width does not exceed
`maxWidth`); part_003's `wrapText` closes a line already when the width
equals `maxWidth` (strict `<`), so each of its multi-word lines measures
strictly below `maxWidth`.  In both variants every returned line is a
space-delimited concatenation of consecutive input tokens in order (no
mid-token breaking, nothing lost or reordered), and under a monotone measure
a token wider than `maxWidth` is still placed on a line of its own. -/
theorem C2_greedy_wrap (m : Str → ℚ) (W : ℚ) (t : Str)
    (h1 : ∀ a b : Str, m b ≤ m (a ++ b)) (h2 : ∀ a b : Str, m a ≤ m (a ++ b)) :
    VariantA.wrapText m W t = wrapSpecGreedy m W t
    ∧ flatWords (VariantA.wrapText m W t) = wordsOf t
    ∧ flatWords (VariantB.wrapText m W t) = wordsOf t
    ∧ (∀ l ∈ VariantA.wrapText m W t, ∀ w ∈ wordsOf l, W < m w → wordsOf l = [w])
    ∧ (∀ l ∈ VariantB.wrapText m W t, ∀ w ∈ wordsOf l, W < m w → wordsOf l = [w])
    ∧ (∀ l ∈ VariantB.wrapText m W t, 2 ≤ (wordsOf l).length → m l < W) := by
  refine ⟨wrapText_A_eq_spec m W t, wrapText_A_words m W t, wrapText_B_words m W t,
    (wrapText_own_line m W t h1 h2).1, (wrapText_own_line m W t h1 h2).2, ?_⟩
  intro l hl hlen
  rcases wrapText_B_lineOk m W t l hl with hle | hfit
  · omega
  · exact hfit

/-- C2 witness: the theorem applied to the character-count measure. -/
theorem C2_greedy_wrap_witness :
    VariantA.wrapText mlen 3 ['a', ' ', 'b']
      = wrapSpecGreedy mlen 3 ['a', ' ', 'b'] :=
  (C2_greedy_wrap mlen 3 ['a', ' ', 'b'] mlen_suffix mlen_prefix).1

/-- C3: a missing or failed load of the logo, signature, or QR image is
recovered inside the render: the `onerror` paths resolve, the part_003 render
always returns a success artifact, and the failed element is simply not drawn
(no ops emitted, context untouched). -/
theorem C3_asset_failure_recovered :
    (∀ (env : RenderEnv) (cfg : VariantB.Config) (c0 : Ctx),
      ∃ v, VariantB.renderCertificate env cfg c0 = Except.ok v)
    ∧ (∀ (env : RenderEnv) (t : CertificateTemplate) (url : String) (c : Ctx),
        env.loadImage url = none →
        VariantB.drawLogo env t url c = ([], c)
        ∧ VariantB.drawSignature env t url c = ([], c)
        ∧ VariantB.drawQRCode env t url c = ([], c))
    ∧ (∀ (env : RenderEnv) (w h : ℚ) (url : String) (pos : Pos)
          (vert : VariantA.VPos) (c : Ctx), env.loadImage url = none →
        VariantA.renderImage env w h url pos vert c = ([], c)) := by
  refine ⟨fun env cfg c0 => renderB_ok env cfg c0, ?_, ?_⟩
  · intro env t url c hld
    exact ⟨drawLogo_onerror env t url c hld, drawSignature_onerror env t url c hld,
      drawQRCode_onerror env t url c hld⟩
  · intro env w h url pos vert c hld
    exact renderImage_onerror env w h url pos vert c hld

/-- C3 witness: under an environment in which every load fails, the render of
a concrete config still succeeds and the loaders draw nothing. -/
theorem C3_asset_failure_recovered_witness :
    (∃ v, VariantB.renderCertificate envNone cfgB1 ctx0 = Except.ok v)
    ∧ VariantB.drawLogo envNone tmplB0 "logo.png" ctx0 = ([], ctx0)
    ∧ VariantA.renderImage envNone 800 600 "logo.png" Pos.center
        VariantA.VPos.top ctx0 = ([], ctx0) :=
  ⟨C3_asset_failure_recovered.1 envNone cfgB1 ctx0,
   (C3_asset_failure_recovered.2.1 envNone tmplB0 "logo.png" ctx0 rfl).1,
   C3_asset_failure_recovered.2.2 envNone 800 600 "logo.png" Pos.center
     VariantA.VPos.top ctx0 rfl⟩

/-- C6: with one record, a failed QR phase and a successful render, the batch
produces one artifact, the error list holds only the aggregate QR error, yet
the completion banner computes `succeeded = current - errors.length = 0`
while one certificate was in fact produced: the aggregate QR error is counted
as if it were a failed record, so `succeeded + failed = N` fails. -/
theorem C6_reported_count_divergence :
    (Batch.generateBatchCertificates envQrFail [alice] tmplB0 true "").files.length = 1
    ∧ (Batch.generateBatchCertificates envQrFail [alice] tmplB0 true "").errors
        = [Batch.qrAggMsg]
    ∧ Batch.successMessageCount 1
        (Batch.generateBatchCertificates envQrFail [alice] tmplB0 true "").errors = 0 := by
  refine ⟨?_, ?_, ?_⟩ <;> decide

/-- C7 counterexample: on the empty input text, part_003's `wrapText` does
not return zero lines; it returns a single line holding the empty string. -/
theorem C7_counterexample :
    VariantB.wrapText (fun _ => (0 : ℚ)) 100 [] = [[]]
    ∧ VariantB.wrapText (fun _ => (0 : ℚ)) 100 [] ≠ [] := by
  refine ⟨wrapText_B_nil _ _, ?_⟩
  rw [wrapText_B_nil]
  simp

/-- C7 (amended): on the empty input text certificateRenderer.ts's `wrapText`
returns the empty line sequence as claimed, while part_003's `wrapText`
returns one line holding the empty string (whose drawing paints no visible
text); neither raises a layout error. -/
theorem C7_empty_text :
    (∀ (m : Str → ℚ) (W : ℚ), VariantA.wrapText m W [] = [])
    ∧ (∀ (m : Str → ℚ) (W : ℚ), VariantB.wrapText m W [] = [[]]) :=
  ⟨wrapText_A_nil, wrapText_B_nil⟩

/-- C9 counterexample: in a two-record batch both render calls draw on the
same canvas (the one `document.createElement('canvas')` executed before the
loop), so the surfaces used by the calls are not pairwise distinct. -/
theorem C9_counterexample :
    ¬ (((Batch.generateBatchCertificates envAllOk [alice, bob] tmplB0 false
        "").calls.map (fun call => call.surface)).Nodup) := by
  decide

/-- C9 (amended): all render calls of a batch share the single canvas created
before the loop (surface id 0 for every call); the shared context state is
nevertheless harmless for the sequential batch, because the part_003 render
is completely insensitive to the context state it starts from, so repeated
renders cannot affect one another's output. -/
theorem C9_shared_surface :
    (∀ (env : Batch.BatchEnv) (ps : List Participant) (t : CertificateTemplate)
        (includeQR : Bool) (baseUrl : String),
      ((Batch.generateBatchCertificates env ps t includeQR baseUrl).calls.map
        (fun call => call.surface)) = List.replicate ps.length 0)
    ∧ (∀ (env : RenderEnv) (cfg : VariantB.Config) (c0 c0' : Ctx),
        VariantB.renderCertificate env cfg c0
          = VariantB.renderCertificate env cfg c0') := by
  constructor
  · intro env ps t includeQR baseUrl
    by_cases h : ps = []
    · subst h
      simp [Batch.generateBatchCertificates]
    · rw [Batch.generateBatchCertificates_spec env ps t includeQR baseUrl h]
      simp [Batch.mkCall, List.eq_replicate_iff]
  · exact fun env cfg c0 c0' => renderB_ctx_indep env cfg c0 c0'

/-- C4: the batch loop makes one render call per record in input order
regardless of failures; each caught failure appends exactly the
human-readable message naming that record, and every success contributes its
file — so one record's failure never aborts the batch nor prevents later
records from being rendered. -/
theorem C4_per_record_isolation (env : Batch.BatchEnv) (ps : List Participant)
    (t : CertificateTemplate) (includeQR : Bool) (baseUrl : String)
    (h : ps ≠ []) :
    (Batch.generateBatchCertificates env ps t includeQR baseUrl).calls
      = ps.map (Batch.mkCall t (Batch.qrPhase env ps includeQR baseUrl).1 includeQR)
    ∧ (Batch.generateBatchCertificates env ps t includeQR baseUrl).errors
      = (Batch.qrPhase env ps includeQR baseUrl).2 ++ ps.filterMap (fun p =>
          match env.renderResult (Batch.mkCall t
              (Batch.qrPhase env ps includeQR baseUrl).1 includeQR p) with
          | Except.ok _ => none
          | Except.error _ => some (Batch.errMsgFor p))
    ∧ (Batch.generateBatchCertificates env ps t includeQR baseUrl).files
      = ps.filterMap (fun p =>
          match env.renderResult (Batch.mkCall t
              (Batch.qrPhase env ps includeQR baseUrl).1 includeQR p) with
          | Except.ok d => some (Batch.fileNameFor p, d)
          | Except.error _ => none) := by
  rw [Batch.generateBatchCertificates_spec env ps t includeQR baseUrl h]
  exact ⟨rfl, rfl, rfl⟩

/-- C4 witness: Alice's render fails, Bob's succeeds; the error list names
Alice and Bob's certificate is still produced. -/
theorem C4_per_record_isolation_witness :
    (Batch.generateBatchCertificates envFailAlice [alice, bob] tmplB0 false
      "").errors = [Batch.errMsgFor alice]
    ∧ (Batch.generateBatchCertificates envFailAlice [alice, bob] tmplB0 false
      "").files = [(Batch.fileNameFor bob, "data:image/png;base64,ok")] := by
  have h := C4_per_record_isolation envFailAlice [alice, bob] tmplB0 false ""
    (by simp)
  refine ⟨?_, ?_⟩
  · rw [h.2.1]
    decide
  · rw [h.2.2]
    decide

/-- C5: when the whole QR phase throws, exactly one aggregate error is
recorded, every record is still rendered — with no `qrCodeUrl` and with
`includeQR` computed `false` for each call — and the batch completes with one
call per record. -/
theorem C5_qr_aggregate_failure (env : Batch.BatchEnv) (ps : List Participant)
    (t : CertificateTemplate) (baseUrl : String)
    (hq : env.qrBatch (ps.map (fun p => p.id)) baseUrl = Except.error ())
    (hne : ps ≠ []) :
    (Batch.generateBatchCertificates env ps t true baseUrl).errors
      = Batch.qrAggMsg :: ps.filterMap (fun p =>
          match env.renderResult (⟨0, t, p, none, false⟩ : Batch.RenderCall) with
          | Except.ok _ => none
          | Except.error _ => some (Batch.errMsgFor p))
    ∧ (Batch.generateBatchCertificates env ps t true baseUrl).calls
      = ps.map (fun p => (⟨0, t, p, none, false⟩ : Batch.RenderCall))
    ∧ (Batch.generateBatchCertificates env ps t true baseUrl).errors.count
        Batch.qrAggMsg = 1
    ∧ (Batch.generateBatchCertificates env ps t true baseUrl).calls.length
      = ps.length := by
  have hphase : Batch.qrPhase env ps true baseUrl = (none, [Batch.qrAggMsg]) := by
    simp [Batch.qrPhase, hq]
  have hspec := Batch.generateBatchCertificates_spec env ps t true baseUrl hne
  have herr : (Batch.generateBatchCertificates env ps t true baseUrl).errors
      = Batch.qrAggMsg :: ps.filterMap (fun p =>
          match env.renderResult (⟨0, t, p, none, false⟩ : Batch.RenderCall) with
          | Except.ok _ => none
          | Except.error _ => some (Batch.errMsgFor p)) := by
    rw [hspec]
    simp [hphase, Batch.mkCall]
  have hcalls : (Batch.generateBatchCertificates env ps t true baseUrl).calls
      = ps.map (fun p => (⟨0, t, p, none, false⟩ : Batch.RenderCall)) := by
    rw [hspec]
    simp [hphase, Batch.mkCall]
  refine ⟨herr, hcalls, ?_, ?_⟩
  · rw [herr]
    have hz : (ps.filterMap (fun p =>
        match env.renderResult (⟨0, t, p, none, false⟩ : Batch.RenderCall) with
        | Except.ok _ => none
        | Except.error _ => some (Batch.errMsgFor p))).count Batch.qrAggMsg = 0 := by
      rw [List.count_eq_zero]
      intro ha
      obtain ⟨p, hpmem, hpeq⟩ := List.mem_filterMap.mp ha
      cases hres : env.renderResult (⟨0, t, p, none, false⟩ : Batch.RenderCall) with
      | ok d =>
        rw [hres] at hpeq
        cases hpeq
      | error e =>
        rw [hres] at hpeq
        exact Batch.errMsgFor_ne_qrAggMsg p (Option.some.inj hpeq)
    simp [hz]
  · rw [hcalls, List.length_map]

/-- C5 witness: one record, the QR provider throws for the whole batch, the
render succeeds: one aggregate error, one render call with QR disabled. -/
theorem C5_qr_aggregate_failure_witness :
    (Batch.generateBatchCertificates envQrFail [alice] tmplB0 true "").errors
      = [Batch.qrAggMsg]
    ∧ (Batch.generateBatchCertificates envQrFail [alice] tmplB0 true
        "").calls.length = 1 := by
  have h := C5_qr_aggregate_failure envQrFail [alice] tmplB0 "" rfl (by simp)
  refine ⟨?_, ?_⟩
  · rw [h.1]
    decide
  · exact h.2.2.2

/-- C10 counterexample: the CSV row whose name cell is `"<>"` passes the
required-field validation (its trim is nonempty), yet the sanitization step
deletes every character, so the accepted participant's name is the empty
string. -/
theorem C10_counterexample :
    ((CSV.validateAndCreateParticipant envCsv rowAngle 1).1.map
      (fun p => p.name)) = some [] := by
  decide

/-- C10 (amended): every CSV row accepted as a participant has a raw name
whose trim is nonempty, and the stored name is exactly that raw name trimmed
with every `<` and `>` removed; the stored name is nonempty provided the
trimmed raw name contains at least one character other than `<` and `>`
(a name consisting solely of angle brackets is accepted with an empty
sanitized name). -/
theorem C10_sanitized_name (env : CSV.CsvEnv) (row : CSV.Row) (rowNumber : Nat)
    (p : Participant) (raw : Str) (hraw : row.name = some raw)
    (hp : (CSV.validateAndCreateParticipant env row rowNumber).1 = some p) :
    trimStr raw ≠ [] ∧ p.name = CSV.sanitizeString raw
    ∧ ((∃ ch ∈ trimStr raw, ch ≠ '<' ∧ ch ≠ '>') → p.name ≠ []) := by
  unfold CSV.validateAndCreateParticipant at hp
  by_cases htrim : trimStr raw = []
  · simp [hraw, htrim] at hp
  · simp [hraw, htrim] at hp
    subst hp
    refine ⟨htrim, rfl, ?_⟩
    intro ⟨ch, hch, hch1, hch2⟩
    have hmem : ch ∈ (trimStr raw).filter (fun c => !(c = '<' || c = '>')) :=
      List.mem_filter.mpr ⟨hch, by simp [hch1, hch2]⟩
    simp only [CSV.sanitizeString]
    exact List.ne_nil_of_mem hmem

/-- C10 witness: the row with name `"  Alice  "` is accepted and stores the
trimmed, bracket-free name `"Alice"`. -/
theorem C10_sanitized_name_witness :
    trimStr (("  Alice  ").toList) ≠ []
    ∧ (("Alice").toList : Str) = CSV.sanitizeString (("  Alice  ").toList)
    ∧ ((∃ ch ∈ trimStr (("  Alice  ").toList), ch ≠ '<' ∧ ch ≠ '>') →
        (("Alice").toList : Str) ≠ []) :=
  C10_sanitized_name envCsv rowAlice 1
    { id := CSV.participantId 1 envCsv.nowMs, name := ("Alice").toList,
      email := none, course := none, date := none, grade := none }
    (("  Alice  ").toList) rfl (by decide)

/-- C1 counterexample: in certificateRenderer.ts, with QR inclusion requested
(`includeQR = true`), no QR image available (`qrCodeUrl` absent) and the
template's `includeQRCode` flag set, the render draws the QR placeholder (a
black square with a white "QR" label) — something does appear in the QR
region. -/
theorem C1_counterexample :
    DrawOp.fillText (("QR").toList) (800 - 80 - 20 + 80 / 2)
      (600 - 80 - 20 + 80 / 2) ⟨Weight.normal, 12, "Arial, sans-serif"⟩
      (Paint.color "#ffffff") "center" "top"
    ∈ (VariantA.renderCertificate envNone cfgC1 ctx0).1 := by
  norm_num [VariantA.renderCertificate, VariantA.renderTitle,
    VariantA.renderBodyText, VariantA.renderQRCodePlaceholder, cfgC1, tmplA0,
    envNone, ctx0, VariantA.getFont, wrapText_A_nil, splitSeq, splitSeqF,
    nameTok]

/-- C1 (amended): in the part_003 renderer the claim holds — when no QR image
is available the render is identical to the QR-disabled render, whatever the
`includeQR` request.  In the certificateRenderer.ts variant this only holds
when the template's `includeQRCode` flag is also clear; with that flag set
(and likewise when a provided QR URL fails to load) a placeholder is drawn
instead of nothing. -/
theorem C1_no_qr_drawn :
    (∀ (env : RenderEnv) (cfg : VariantB.Config) (c0 : Ctx),
      cfg.qrCodeUrl = none →
      VariantB.renderCertificate env cfg c0
        = VariantB.renderCertificate env { cfg with includeQR := false } c0)
    ∧ (∀ (env : RenderEnv) (cfg : VariantA.ConfigA) (c0 : Ctx),
      cfg.qrCodeUrl = none → cfg.template.includeQRCode = false →
      VariantA.renderCertificate env cfg c0
        = VariantA.renderCertificate env { cfg with includeQR := false } c0) :=
  ⟨renderB_no_qr_image, renderA_no_qr_image⟩

/-- C1 witness: concrete configs requesting QR with no QR image available. -/
theorem C1_no_qr_drawn_witness :
    VariantB.renderCertificate envNone cfgB1 ctx0
      = VariantB.renderCertificate envNone { cfgB1 with includeQR := false } ctx0
    ∧ VariantA.renderCertificate envNone cfgA1 ctx0
      = VariantA.renderCertificate envNone { cfgA1 with includeQR := false } ctx0 :=
  ⟨C1_no_qr_drawn.1 envNone cfgB1 ctx0 rfl,
   C1_no_qr_drawn.2 envNone cfgA1 ctx0 rfl rfl⟩

/-- C8: body rendering with exactly one `{name}` token splits the text at the
token, wraps each (trimmed) segment independently at the body size, and draws
the participant's name between them, bold, at `participantNameSize` and
`participantNameColor`, without wrapping it; with no token the whole text is
wrapped as one block and the name is not inserted.  Stated for both renderer
variants via the text-draw projection `textSig`. -/
theorem C8_name_placeholder_styling (env : RenderEnv) (t : CertificateTemplate)
    (p : Participant) (c : Ctx) (w : ℚ) (textA : Str) (size : ℚ)
    (color : String) (n : Str) (nameSize : ℚ) (nameColor : String) :
    (∀ seg0 seg1, splitSeq nameTok t.bodyText = [seg0, seg1] →
      (VariantB.drawBodyText env t p c).1.filterMap textSig
      = (if trimStr seg0 ≠ [] then
           (VariantB.wrapText
              (env.measure ⟨Weight.normal, t.bodySize, t.bodyFont⟩)
              (t.width - 100) (trimStr seg0)).map
             (fun l => (l, Weight.normal, t.bodySize, Paint.color t.bodyColor))
         else [])
        ++ [(p.name, Weight.bold, t.participantNameSize,
              Paint.color t.participantNameColor)]
        ++ (if trimStr seg1 ≠ [] then
              (VariantB.wrapText
                 (env.measure ⟨Weight.normal, t.bodySize, t.bodyFont⟩)
                 (t.width - 100) (trimStr seg1)).map
                (fun l => (l, Weight.normal, t.bodySize, Paint.color t.bodyColor))
            else [])
        ++ (match p.course with
            | some cs => [(("Course: ").toList ++ cs, Weight.italic,
                t.bodySize - 4, Paint.color t.bodyColor)]
            | none => [])
        ++ (match p.grade with
            | some g => [(("Grade: ").toList ++ g, Weight.bold, t.bodySize - 2,
                Paint.color t.bodyColor)]
            | none => []))
    ∧ (∀ whole, splitSeq nameTok t.bodyText = [whole] →
      (VariantB.drawBodyText env t p c).1.filterMap textSig
      = (VariantB.wrapText (env.measure ⟨Weight.normal, t.bodySize, t.bodyFont⟩)
           (t.width - 100) t.bodyText).map
          (fun l => (l, Weight.normal, t.bodySize, Paint.color t.bodyColor))
        ++ (match p.course with
            | some cs => [(("Course: ").toList ++ cs, Weight.italic,
                t.bodySize - 4, Paint.color t.bodyColor)]
            | none => [])
        ++ (match p.grade with
            | some g => [(("Grade: ").toList ++ g, Weight.bold, t.bodySize - 2,
                Paint.color t.bodyColor)]
            | none => []))
    ∧ (∀ seg0 seg1, splitSeq nameTok textA = [seg0, seg1] → n ≠ [] →
        nameSize ≠ 0 → nameColor ≠ "" →
      (VariantA.renderBodyText env w textA size color (some n) nameSize
          nameColor c).1.filterMap textSig
      = (if trimStr seg0 ≠ [] then
           (VariantA.wrapText
              (env.measure ⟨Weight.normal, size, VariantA.getFont⟩) (w - 100)
              (trimStr seg0)).map
             (fun l => (l, Weight.normal, size, Paint.color color))
         else [])
        ++ [(n, Weight.bold, nameSize, Paint.color nameColor)]
        ++ (if trimStr seg1 ≠ [] then
              (VariantA.wrapText
                 (env.measure ⟨Weight.normal, size, VariantA.getFont⟩) (w - 100)
                 (trimStr seg1)).map
                (fun l => (l, Weight.normal, size, Paint.color color))
            else []))
    ∧ (∀ whole (pn : Option Str), splitSeq nameTok textA = [whole] →
      (VariantA.renderBodyText env w textA size color pn nameSize nameColor
          c).1.filterMap textSig
      = (VariantA.wrapText (env.measure ⟨Weight.normal, size, VariantA.getFont⟩)
           (w - 100) textA).map
          (fun l => (l, Weight.normal, size, Paint.color color))) :=
  ⟨fun _ _ h => drawBodyText_B_placeholder env t p c h,
   fun _ h => drawBodyText_B_block env t p c h,
   fun _ _ h hn hns hnc =>
     renderBodyText_A_spec env w textA size color n nameSize nameColor c h hn
       hns hnc,
   fun _ pn h =>
     renderBodyText_A_block env w textA size color pn nameSize nameColor c h⟩

/-- C8 witness: the concrete template `"Awarded to {name} with honors"` with
participant Alice: the before and after segments are wrapped at the body
size and Alice's name is drawn between them bold at the name size/color. -/
theorem C8_name_placeholder_styling_witness :
    (VariantB.drawBodyText envNone tmplB0 alice ctx0).1.filterMap textSig
  = (if trimStr (("Awarded to ").toList) ≠ [] then
       (VariantB.wrapText
          (envNone.measure ⟨Weight.normal, tmplB0.bodySize, tmplB0.bodyFont⟩)
          (tmplB0.width - 100) (trimStr (("Awarded to ").toList))).map
         (fun l => (l, Weight.normal, tmplB0.bodySize,
           Paint.color tmplB0.bodyColor))
     else [])
    ++ [(alice.name, Weight.bold, tmplB0.participantNameSize,
          Paint.color tmplB0.participantNameColor)]
    ++ (if trimStr ((" with honors").toList) ≠ [] then
          (VariantB.wrapText
             (envNone.measure ⟨Weight.normal, tmplB0.bodySize, tmplB0.bodyFont⟩)
             (tmplB0.width - 100) (trimStr ((" with honors").toList))).map
            (fun l => (l, Weight.normal, tmplB0.bodySize,
              Paint.color tmplB0.bodyColor))
        else [])
    ++ [] ++ [] :=
  (C8_name_placeholder_styling envNone tmplB0 alice ctx0 0 [] 0 "" [] 0 "").1
    (("Awarded to ").toList) ((" with honors").toList) (by decide)
